import Mathlib

/-!
# The eskip route printer (`eskip/string.go`)

A shallow embedding of the canonical printer of route expressions and a
verification of its specification.

Go strings are byte sequences: `GoString` is `List UInt8`, and the string
constants of the source are written as Lean string literals and encoded as
UTF-8 by `goStr`.  A Go `map` is given by the list of its entries in the order
in which `range` visits them.  Pointers are modelled by their targets.
-/

namespace Eskip

/-! ## Strings -/

/-- One byte of a Go string. -/
abbrev Byte := UInt8

/-- A Go `string`: an immutable sequence of bytes. -/
abbrev GoString := List Byte

/-- The bytes (UTF-8) of a string constant of the source. -/
def goStr (s : String) : GoString := s.data.flatMap String.utf8EncodeChar

/-- The backslash byte, the one byte of the Go constant `"\\"`. -/
def backslash : Byte := 92

/-- Scanning loop of `strings.Replace(s, old, new, -1)` for a non-empty `old`:
the text is read left to right, each occurrence of `old` found at the reading
position is replaced by `new` and reading resumes after it (occurrences do not
overlap).  `skip` counts the bytes of the occurrence still to be passed. -/
def stringsReplaceFrom (old new : GoString) : GoString → Nat → GoString
  | [], _ => []
  | _ :: rest, skip + 1 => stringsReplaceFrom old new rest skip
  | b :: rest, 0 =>
    if old.isPrefixOf (b :: rest) then
      new ++ stringsReplaceFrom old new rest (old.length - 1)
    else
      b :: stringsReplaceFrom old new rest 0

/-- Go `strings.Replace(s, old, new, -1)` for a non-empty pattern `old`
(the only way the printer calls it). -/
def stringsReplace (s old new : GoString) : GoString :=
  stringsReplaceFrom old new s 0

/-- Go `strings.Join(elems, sep)`. -/
def stringsJoin : List GoString → GoString → GoString
  | [], _ => []
  | [a], _ => a
  | a :: b :: rest, sep => a ++ sep ++ stringsJoin (b :: rest) sep

/-- Go `fmt.Sprintf(format, args...)` for string operands and the verbs `%s`
and `%v`, which copy the operand verbatim; every other byte of the format is
copied.  A verb without operand prints Go's `%!s(MISSING)` notice. -/
def Sprintf : GoString → List GoString → GoString
  | [], _ => []
  | [b], _ => [b]
  | b :: v :: rest, args =>
    if b = 37 ∧ (v = 115 ∨ v = 118) then
      match args with
      | a :: args' => a ++ Sprintf rest args'
      | [] => goStr "%!" ++ [v] ++ goStr "(MISSING)" ++ Sprintf rest []
    else
      b :: Sprintf (v :: rest) args

/-! ## Data model -/

/-- A Go `float64` argument.  The printer reaches a float only through the
standard library, so the value is given by the three observations `argsString`
makes of it: whether `math.Floor(v) == v` holds, the text of
`fmt.Sprintf("%g", v)` and the text of `fmt.Sprintf("%.0f", v)`.
Floating-point arithmetic and number formatting are not modelled. -/
structure Float64 where
  floorIsSelf : Bool
  fmtG : GoString
  fmtF0 : GoString
deriving DecidableEq, Repr

/-- A dynamically typed argument (`interface{}`) of a predicate or filter:
a `float64`, a `string`, or a value of any other dynamic type. -/
inductive Arg where
  | float64 (v : Float64)
  | string (s : GoString)
  | other
deriving DecidableEq, Repr

/-- Modelled from the spec: the generic predicate `Name(Args...)`
(the struct declaration is not part of `string.go`). -/
structure Predicate where
  Name : GoString
  Args : List Arg
deriving DecidableEq, Repr

/-- Modelled from the spec: the filter `Name(Args...)`
(the struct declaration is not part of `string.go`). -/
structure Filter where
  Name : GoString
  Args : List Arg
deriving DecidableEq, Repr

/-- Modelled from the spec: the backend kinds, "one of four kinds": Network,
Shunt, Loopback, and the dynamic/load-balanced kind not detailed by the spec
(the constants are declared outside `string.go`). -/
inductive BackendType where
  | NetworkBackend
  | ShuntBackend
  | LoopBackend
  | DynamicBackend
deriving DecidableEq, Repr

/-- Modelled from the spec: the `Route` struct, with the fields that
`string.go` reads.  `Headers` and `HeaderRegexps` are Go maps, given by their
entries in iteration order: the order in which one call of the printer visits
them.  Go draws this order anew at every `range`, so another call on the same
Go value may visit the entries in another order, which is another list here
(see `Route.sameAs`). -/
structure Route where
  ID : GoString
  Path : GoString
  HostRegexps : List GoString
  PathRegexps : List GoString
  Method : GoString
  Headers : List (GoString × GoString)
  HeaderRegexps : List (GoString × List GoString)
  Predicates : List Predicate
  Filters : List Filter
  Shunt : Bool
  BackendType : BackendType
  Backend : GoString
deriving DecidableEq, Repr

/-! ## The printer -/

/-- Source `escape`: double every backslash, then put a backslash before every
occurrence of each byte of `chars`, one byte of `chars` after the other. -/
def escape (s chars : GoString) : GoString :=
  chars.foldl (fun s c => stringsReplace s [c] (goStr "\\" ++ [c]))
    (stringsReplace s (goStr "\\") (goStr "\\\\"))

/-- Source `appendFmt`, for string operands. -/
def appendFmt (s : List GoString) (format : GoString) (args : List GoString) : List GoString :=
  s ++ [Sprintf format args]

/-- Source `appendFmtEscape`, for string operands (`%v` of a string is the
string itself). -/
def appendFmtEscape (s : List GoString) (format escapeChars : GoString)
    (args : List GoString) : List GoString :=
  let eargs := args.map (fun arg => escape (Sprintf (goStr "%v") [arg]) escapeChars)
  appendFmt s format eargs

/-- The call `fmt.Sprintf(f, v)` of `argsString` for a `float64` operand and
the two formats the source uses. -/
def sprintfFloat (f : GoString) (v : Float64) : GoString :=
  if f = goStr "%.0f" then v.fmtF0 else v.fmtG

/-- Source `argsString`. -/
def argsString (args : List Arg) : GoString :=
  let sargs := args.foldl (fun (sargs : List GoString) a =>
    match a with
    | Arg.float64 v =>
      let f := if v.floorIsSelf then goStr "%.0f" else goStr "%g"
      sargs ++ [sprintfFloat f v]
    | Arg.string s => appendFmtEscape sargs (goStr "\"%s\"") (goStr "\"") [s]
    | Arg.other => sargs) []
  stringsJoin sargs (goStr ", ")

/-- Source `Route.predicateString`. -/
def Route.predicateString (r : Route) : GoString :=
  let predicates : List GoString := []
  let predicates :=
    if r.Path ≠ [] then appendFmtEscape predicates (goStr "Path(\"%s\")") (goStr "\"") [r.Path]
    else predicates
  let predicates := r.HostRegexps.foldl
    (fun ps h => appendFmtEscape ps (goStr "Host(/%s/)") (goStr "/") [h]) predicates
  let predicates := r.PathRegexps.foldl
    (fun ps p => appendFmtEscape ps (goStr "PathRegexp(/%s/)") (goStr "/") [p]) predicates
  let predicates :=
    if r.Method ≠ [] then appendFmtEscape predicates (goStr "Method(\"%s\")") (goStr "\"") [r.Method]
    else predicates
  let predicates := r.Headers.foldl
    (fun ps kv => appendFmtEscape ps (goStr "Header(\"%s\", \"%s\")") (goStr "\"") [kv.1, kv.2])
    predicates
  let predicates := r.HeaderRegexps.foldl
    (fun ps krxs => krxs.2.foldl
      (fun ps rx => appendFmt ps (goStr "HeaderRegexp(\"%s\", /%s/)")
        [escape krxs.1 (goStr "\""), escape rx (goStr "/")]) ps)
    predicates
  let predicates := r.Predicates.foldl
    (fun ps p =>
      if p.Name ≠ goStr "Any" then appendFmt ps (goStr "%s(%s)") [p.Name, argsString p.Args]
      else ps)
    predicates
  let predicates := if predicates.length = 0 then predicates ++ [goStr "*"] else predicates
  stringsJoin predicates (goStr " && ")

/-- Source `Route.filterString`. -/
def Route.filterString (r : Route) (pretty : Bool) : GoString :=
  let sfilters := r.Filters.foldl
    (fun (sfilters : List GoString) f =>
      appendFmt sfilters (goStr "%s(%s)") [f.Name, argsString f.Args]) []
  if pretty then stringsJoin sfilters (goStr "\n  -> ")
  else stringsJoin sfilters (goStr " -> ")

/-- Source `Route.backendString`. -/
def Route.backendString (r : Route) : GoString :=
  if r.Shunt ∨ r.BackendType = BackendType.ShuntBackend then goStr "<shunt>"
  else if r.BackendType = BackendType.LoopBackend then goStr "<loopback>"
  else r.Backend

/-- Source `Route.backendStringQuoted`. -/
def Route.backendStringQuoted (r : Route) : GoString :=
  let s := r.backendString
  if r.BackendType = BackendType.NetworkBackend ∧ ¬ r.Shunt then Sprintf (goStr "\"%s\"") [s]
  else s

/-- Source `Route.Print`. -/
def Route.Print (r : Route) (pretty : Bool) : GoString :=
  let s := [r.predicateString]
  let fs := r.filterString pretty
  let s := if fs ≠ [] then s ++ [fs] else s
  let s := s ++ [r.backendStringQuoted]
  let separator := if pretty then goStr "\n  -> " else goStr " -> "
  stringsJoin s separator

/-- Source `Route.String`. -/
def Route.String (r : Route) : GoString := r.Print false

/-- Source `Print` (package level), on the routes passed.  The first branch is
the test `len(routes) == 1 && routes[0].ID == ""`. -/
def Print (pretty : Bool) (routes : List Route) : GoString :=
  let rs := routes.map (fun r => Sprintf (goStr "%s: %s") [r.ID, r.Print pretty])
  match routes with
  | [r0] => if r0.ID = [] then r0.Print pretty else stringsJoin rs (goStr ";\n")
  | _ => stringsJoin rs (goStr ";\n")

/-! ## Specification-side definitions -/

/-- The translation of one byte by `escape`, as the spec words it: a backslash
and a byte of `chars` get a backslash in front, every other byte is kept. -/
def escapeByte (chars : GoString) (b : Byte) : GoString :=
  if b = backslash ∨ b ∈ chars then [backslash, b] else [b]

/-- Modelled from the spec: the parser-side `unescape`, the two-phase inverse
of `escape` (its code is not part of `string.go`): first every
backslash-prefixed special character is replaced by the character itself, one
special character after the other, then every remaining double backslash is
collapsed into a single backslash. -/
def unescape (s chars : GoString) : GoString :=
  stringsReplace
    (chars.foldl (fun s c => stringsReplace s (goStr "\\" ++ [c]) [c]) s)
    (goStr "\\\\") (goStr "\\")

/-- The separator of the clauses of a route: ` -> `, or in pretty mode a
newline, two spaces and `-> `. -/
def separator (pretty : Bool) : GoString :=
  if pretty then goStr "\n  -> " else goStr " -> "

/-- The text `Name(args)` of a filter or of a generic predicate. -/
def callText (name : GoString) (args : List Arg) : GoString :=
  name ++ (goStr "(" ++ (argsString args ++ goStr ")"))

/-- The text of a string argument: the quote-escaped string in double quotes. -/
def quoted (s : GoString) : GoString :=
  goStr "\"" ++ (escape s (goStr "\"") ++ goStr "\"")

/-- The predicate terms of a route in the order the spec lists them: `Path`,
one `Host` per host regexp, one `PathRegexp` per path regexp, `Method`, one
`Header` per header entry, one `HeaderRegexp` per (key, regexp) pair, and the
generic predicates that are not named `Any`. -/
def predicateTerms (r : Route) : List GoString :=
  (if r.Path ≠ [] then [goStr "Path(" ++ (quoted r.Path ++ goStr ")")] else [])
  ++ r.HostRegexps.map (fun h => goStr "Host(/" ++ (escape h (goStr "/") ++ goStr "/)"))
  ++ r.PathRegexps.map (fun p => goStr "PathRegexp(/" ++ (escape p (goStr "/") ++ goStr "/)"))
  ++ (if r.Method ≠ [] then [goStr "Method(" ++ (quoted r.Method ++ goStr ")")] else [])
  ++ r.Headers.map
      (fun kv => goStr "Header(" ++ (quoted kv.1 ++ (goStr ", " ++ (quoted kv.2 ++ goStr ")"))))
  ++ r.HeaderRegexps.flatMap
      (fun krxs => krxs.2.map
        (fun rx => goStr "HeaderRegexp(" ++ (quoted krxs.1 ++ (goStr ", /" ++
          (escape rx (goStr "/") ++ goStr "/)")))))
  ++ (r.Predicates.filter (fun p => decide (p.Name ≠ goStr "Any"))).map
      (fun p => callText p.Name p.Args)

/-- The route without predicates, filters or backend address (Go's zero
`Route` with the Network backend kind). -/
def emptyRoute : Route :=
  { ID := [], Path := [], HostRegexps := [], PathRegexps := [], Method := [], Headers := [],
    HeaderRegexps := [], Predicates := [], Filters := [], Shunt := false,
    BackendType := BackendType.NetworkBackend, Backend := [] }

/-- The route of the spec's concrete scenario:
`Path("/foo") && Method("GET") -> setPath("/bar") -> "https://example.org"`. -/
def scenarioRoute : Route :=
  { emptyRoute with
    Path := goStr "/foo", Method := goStr "GET",
    Filters := [{ Name := goStr "setPath", Args := [Arg.string (goStr "/bar")] }],
    Backend := goStr "https://example.org" }

/-- The routes of the spec's batch scenario:
`r1: Path("/a") -> <shunt>; r2: * -> <loopback>`. -/
def scenarioBatch : List Route :=
  [{ emptyRoute with
      ID := goStr "r1"
      Path := goStr "/a"
      BackendType := BackendType.ShuntBackend },
   { emptyRoute with
      ID := goStr "r2"
      BackendType := BackendType.LoopBackend }]

/-- Modelled from the spec: the equality of two routes "field by field, modulo
Header/HeaderRegexp key ordering". -/
def Route.sameAs (r r' : Route) : Prop :=
  r.ID = r'.ID ∧ r.Path = r'.Path ∧ r.HostRegexps = r'.HostRegexps ∧
  r.PathRegexps = r'.PathRegexps ∧ r.Method = r'.Method ∧ r.Headers.Perm r'.Headers ∧
  r.HeaderRegexps.Perm r'.HeaderRegexps ∧ r.Predicates = r'.Predicates ∧
  r.Filters = r'.Filters ∧ r.Shunt = r'.Shunt ∧ r.BackendType = r'.BackendType ∧
  r.Backend = r'.Backend

/-- Modelled from the spec: the round-trip property of a parser at a route `r`.
The parser is an argument, a function from a text to a sequence of routes
or an error (`none`), so that the property can be stated of every parser and of
the parser `parse` of the grammar.  The property says that parsing the compact
print of `r` yields exactly one route, equal to `r` field by field modulo header
ordering. -/
def RoundTrip (parse : GoString → Option (List Route)) (r : Route) : Prop :=
  ∃ r', parse (Print false [r]) = some [r'] ∧ r'.sameAs r

/-- The route `r` without its generic predicates named `Any`. -/
def Route.withoutAny (r : Route) : Route :=
  { r with Predicates := r.Predicates.filter (fun p => decide (p.Name ≠ goStr "Any")) }

/-- The scenario route with two generic predicates, `Any()` and `Foo("x")`. -/
def anyRoute : Route :=
  { scenarioRoute with
    Predicates := [{ Name := goStr "Any", Args := [] },
      { Name := goStr "Foo", Args := [Arg.string (goStr "x")] }] }

end Eskip

/-! # The filters `flowID` (`filters/flowid/filter.go`) and `redirect`
(`filters/builtin/redirect.go`)

The filters work on values of the Go standard library (`net/http`, `net/url`)
and on the filter context of the routing engine.  Library values are modelled
by the fields the filters read and write; library functions that compute a
result from a text or a URL (`url.Parse`, `URL.String`, the conversion
`int(v)`) are parameters of the definitions that call them. -/

namespace Http

open Eskip

/-- Go `http.Header`, a map from canonical header names to their values, as a
lookup function: `none` is a missing key.  The filters read and write single
keys and never iterate over the map.  The keys they use (`X-Flow-Id`, `Host`,
`Location`) are in canonical form already, so canonicalisation of the key by
`Get` and `Set` is the identity on them. -/
structure Header where
  lookup : GoString → Option (List GoString)

/-- Go `Header.Get`: the first value of the key, the empty string without one. -/
def Header.Get (h : Header) (key : GoString) : GoString :=
  match h.lookup key with
  | some (v :: _) => v
  | _ => []

/-- Go `Header.Set`: the key gets the single value, replacing existing values. -/
def Header.Set (h : Header) (key value : GoString) : Header :=
  { lookup := fun k => if k = key then some [value] else h.lookup k }

/-- The Go map literal `http.Header{key: values}`. -/
def Header.ofEntry (key : GoString) (values : List GoString) : Header :=
  { lookup := fun k => if k = key then some values else none }

/-- The empty header map. -/
def Header.empty : Header := { lookup := fun _ => none }

end Http

namespace Filters

/-- The errors of the package `filters` of the engine that the two filters
return: the variable `filters.ErrInvalidFilterParameters`. -/
inductive FilterError where
  | ErrInvalidFilterParameters
deriving DecidableEq, Repr

end Filters

namespace Flowid

open Eskip Filters

/-- Source constant `Name`. -/
def Name : GoString := goStr "flowID"

/-- Source constant `ReuseParameterValue`. -/
def ReuseParameterValue : GoString := goStr "reuse"

/-- Source constant `HeaderName`. -/
def HeaderName : GoString := goStr "X-Flow-Id"

/-- Source interface `Generator`, for a generator whose state has type `σ`:
`Generate` returns a flow ID and an error (`none` is Go's `nil`), and the next
state of the generator; `IsValid` inspects a flow ID.  `MustGenerate` is not
called by the filter. -/
structure Generator (σ : Type) where
  Generate : σ → (GoString × Option GoString) × σ
  IsValid : σ → GoString → Bool

/-- Source struct `flowIDSpec`. -/
structure flowIDSpec (σ : Type) where
  generator : Generator σ

/-- Source struct `flowID`. -/
structure flowID (σ : Type) where
  reuseExisting : Bool
  generator : Generator σ

/-- What a call of the filter reaches: the header of the request of the filter
context (`fc.Request().Header`), the state of the generator, and the lines
written with `log.Println`. -/
structure Context (σ : Type) where
  Header : Http.Header
  generatorState : σ
  log : List GoString

/-- Go `strings.ToLower` on the ASCII letters: the bytes `A` to `Z` are mapped
to `a` to `z`, every other byte is kept.  On a text with non-ASCII characters
Go maps each character by Unicode; no such character is mapped to one of the
letters of `reuse`, so the comparison in `CreateFilter` has the same outcome. -/
def stringsToLower (s : GoString) : GoString :=
  s.map (fun b => if 65 ≤ b ∧ b ≤ 90 then b + 32 else b)

/-- Source `NewWithGenerator`. -/
def NewWithGenerator {σ : Type} (g : Generator σ) : flowIDSpec σ := { generator := g }

/-- Source `flowID.Request`. -/
def flowID.Request {σ : Type} (f : flowID σ) (fc : Context σ) : Context σ :=
  let generate : Context σ :=
    let res := f.generator.Generate fc.generatorState
    match res.1.2 with
    | none => { fc with Header := fc.Header.Set HeaderName res.1.1, generatorState := res.2 }
    | some err => { fc with generatorState := res.2, log := fc.log ++ [err] }
  if f.reuseExisting then
    let flowID := fc.Header.Get HeaderName
    if f.generator.IsValid fc.generatorState flowID then fc else generate
  else generate

/-- Source `flowID.Response`: no operation. -/
def flowID.Response {σ : Type} (_f : flowID σ) (fc : Context σ) : Context σ := fc

/-- The warning that `CreateFilter` logs for more than one argument. -/
def deprecationWarning : GoString :=
  goStr ("flow id filter warning: this syntaxt is deprecated and will be removed soon. " ++
    "please check updated docs")

/-- Source `flowIDSpec.CreateFilter`: the filter or the error, and the lines
logged. -/
def flowIDSpec.CreateFilter {σ : Type} (spec : flowIDSpec σ) (fc : List Arg) :
    Except FilterError (flowID σ) × List GoString :=
  match fc with
  | [] => (Except.ok { reuseExisting := false, generator := spec.generator }, [])
  | Arg.string r :: _ =>
    let reuseExisting := decide (stringsToLower r = ReuseParameterValue)
    let log := if fc.length > 1 then [deprecationWarning] else []
    (Except.ok { reuseExisting := reuseExisting, generator := spec.generator }, log)
  | _ :: _ => (Except.error FilterError.ErrInvalidFilterParameters, [])

/-- Source `flowIDSpec.Name`. -/
def flowIDSpec.Name {σ : Type} (_spec : flowIDSpec σ) : GoString := Flowid.Name

/-- The text `s` is `reuse` up to the case of its letters: byte by byte, it is
the lower-case letter or the upper-case letter of `reuse`. -/
def isReuseIgnoringCase (s : GoString) : Prop :=
  List.Forall₂ (fun b c => b = c ∨ b + 32 = c) s (goStr "reuse")

/-- A generator for concrete runs: the state counts the IDs generated, the
`n`-th ID is `n` letters `x` behind `id`, it fails from the third call on, and
it accepts exactly the ID of the tests, `FLOW-ID-FOR-TESTING`. -/
def countingGenerator : Generator Nat where
  Generate := fun n =>
    if n < 2 then ((goStr "id" ++ List.replicate n 120, none), n + 1)
    else (([], some (goStr "no more ids")), n + 1)
  IsValid := fun _ s => decide (s = goStr "FLOW-ID-FOR-TESTING")

/-- A request header with the flow ID of the tests and one more header. -/
def testHeader : Http.Header :=
  (Http.Header.empty.Set (goStr "Accept") (goStr "*/*")).Set HeaderName
    (goStr "FLOW-ID-FOR-TESTING")

/-- A context with `testHeader`, a fresh `countingGenerator` and an empty log. -/
def testContext : Context Nat :=
  { Header := testHeader, generatorState := 0, log := [] }

end Flowid

namespace Url

open Eskip

/-- Go `url.Userinfo`: user name and optional password of a URL. -/
structure Userinfo where
  username : GoString
  password : GoString
  passwordSet : Bool
deriving DecidableEq, Repr

/-- Go `url.URL`, by its components; `User` is a pointer and may be `nil`. -/
structure URL where
  Scheme : GoString
  Opaque : GoString
  User : Option Userinfo
  Host : GoString
  Path : GoString
  RawPath : GoString
  RawQuery : GoString
  Fragment : GoString
deriving DecidableEq, Repr

end Url

namespace Http

open Eskip

/-- Go `http.Request`, by the fields the redirect filter reads. -/
structure Request where
  Header : Header
  Host : GoString
  URL : Url.URL

/-- Go `http.Response`, by the fields the redirect filter sets. -/
structure Response where
  StatusCode : Int
  Header : Header

end Http

namespace Builtin

open Eskip Filters

/-- A call that a filter makes on its filter context (`filters.FilterContext`,
an interface of the engine) or on the response writer of the context.  A hook
of the filter is described by the calls it makes, in order. -/
inductive ContextCall where
  | Serve (resp : Http.Response)
  | ResponseHeaderSet (key value : GoString)
  | WriteHeader (code : Int)
  | MarkServed

/-- Source struct `redirect`, used for the spec and for its instances;
`location` is a pointer, `nil` in a spec. -/
structure redirect where
  deprecated : Bool
  code : Int
  location : Option Url.URL
deriving DecidableEq, Repr

/-- Source `NewRedirect`. -/
def NewRedirect : redirect := { deprecated := true, code := 0, location := none }

/-- Source `NewRedirectTo`. -/
def NewRedirectTo : redirect := { deprecated := false, code := 0, location := none }

/-- Source `redirect.CreateFilter`.  `urlParse` is Go's `url.Parse` (`none` for
an error) and `toInt` is Go's conversion `int(v)` of a `float64`. -/
def redirect.CreateFilter (spec : redirect) (urlParse : GoString → Option Url.URL)
    (toInt : Float64 → Int) (config : List Arg) : Except FilterError redirect :=
  let invalidArgs : Except FilterError redirect :=
    Except.error FilterError.ErrInvalidFilterParameters
  if config.length ≠ 2 then invalidArgs
  else
    match config with
    | [Arg.float64 code, c1] =>
      match c1 with
      | Arg.string location =>
        match urlParse location with
        | some u => Except.ok { deprecated := spec.deprecated, code := toInt code, location := some u }
        | none => invalidArgs
      | _ => invalidArgs
    | _ => invalidArgs

/-- Source `getRequestHost`. -/
def getRequestHost (r : Http.Request) : GoString :=
  let h := r.Header.Get (goStr "Host")
  let h := if h = [] then r.Host else h
  let h := if h = [] then r.URL.Host else h
  h

/-- The URL `u` that source `getLocation` builds from the request of the
context and a copy of the configured location, before it is serialised. -/
def locationURL (r : Http.Request) (location : Url.URL) : Url.URL :=
  let u := location
  let u :=
    if u.Scheme = [] then
      if r.URL.Scheme ≠ [] then { u with Scheme := r.URL.Scheme }
      else { u with Scheme := goStr "https" }
    else u
  let u := { u with User := r.URL.User }
  let u := if u.Host = [] then { u with Host := getRequestHost r } else u
  let u := if u.Path = [] then { u with Path := r.URL.Path } else u
  let u := if u.RawQuery = [] then { u with RawQuery := r.URL.RawQuery } else u
  u

/-- Source `getLocation`: the serialisation `u.String()` of `locationURL`;
`urlString` is Go's `URL.String`. -/
def getLocation (urlString : Url.URL → GoString) (r : Http.Request) (location : Url.URL) :
    GoString :=
  urlString (locationURL r location)

/-- Source `Redirect`: the calls made on the context. -/
def Redirect (urlString : Url.URL → GoString) (r : Http.Request) (code : Int)
    (location : Url.URL) : List ContextCall :=
  let u := getLocation urlString r location
  [ContextCall.Serve { StatusCode := code, Header := Http.Header.ofEntry (goStr "Location") [u] }]

/-- Source `redirect.Request`: the calls made on the context whose request is
`r`; `none` is the panic of Go on the `nil` location of a spec. -/
def redirect.Request (spec : redirect) (urlString : Url.URL → GoString) (r : Http.Request) :
    Option (List ContextCall) :=
  if spec.deprecated then some []
  else
    match spec.location with
    | some location => some (Redirect urlString r spec.code location)
    | none => none

/-- Source `redirect.Response`: the calls made on the context whose request is
`r`; `none` is the panic of Go on the `nil` location of a spec. -/
def redirect.Response (spec : redirect) (urlString : Url.URL → GoString) (r : Http.Request) :
    Option (List ContextCall) :=
  if ¬ spec.deprecated then some []
  else
    match spec.location with
    | some location =>
      let u := getLocation urlString r location
      some [ContextCall.ResponseHeaderSet (goStr "Location") u,
        ContextCall.WriteHeader spec.code, ContextCall.MarkServed]
    | none => none

/-- The URL without components. -/
def emptyURL : Url.URL :=
  { Scheme := []
    Opaque := []
    User := none
    Host := []
    Path := []
    RawPath := []
    RawQuery := []
    Fragment := [] }

/-- The number a Go `float64` stands for: a finite number, an infinity or NaN. -/
inductive FloatValue where
  | finite (q : ℚ)
  | infinite (negative : Bool)
  | nan
deriving DecidableEq

/-- The truncation of a number toward zero: its fraction is discarded. -/
def truncate (q : ℚ) : Int := if 0 ≤ q then ⌊q⌋ else ⌈q⌉

/-- What the Go language specification says of the conversion `int(v)` of a
`float64` to the 64-bit `int`, for `value` giving the number a float stands
for: the result is an `int`; the fraction is discarded when the truncated
number is an `int`; when it is not (and for an infinity or NaN) the result
depends on the implementation. -/
def IsGoIntConversion (value : Float64 → FloatValue) (toInt : Float64 → Int) : Prop :=
  (∀ v, -2 ^ 63 ≤ toInt v ∧ toInt v < 2 ^ 63)
    ∧ ∀ v q, value v = FloatValue.finite q → -2 ^ 63 ≤ truncate q → truncate q < 2 ^ 63 →
        toInt v = truncate q

/-- The answers of `url.Parse` on the two texts of the examples: `/new` is a
path, and `:foo` is rejected (missing protocol scheme).  No other text is
passed to it. -/
def exampleParse (s : GoString) : Option Url.URL :=
  if s = goStr "/new" then some { emptyURL with Path := goStr "/new" } else none

/-- The float `301` of the examples. -/
def float301 : Float64 := { floorIsSelf := true, fmtG := goStr "301", fmtF0 := goStr "301" }

/-- The float `301.5` of the examples. -/
def float301Half : Float64 :=
  { floorIsSelf := false, fmtG := goStr "301.5", fmtF0 := goStr "302" }

/-- The float `9223372036854775808`, two to the power 63, of the examples. -/
def floatHuge : Float64 :=
  { floorIsSelf := true, fmtG := goStr "9.223372036854776e+18",
    fmtF0 := goStr "9223372036854775808" }

/-- The numbers of the floats of the examples. -/
def exampleValue (v : Float64) : FloatValue :=
  if v = float301 then FloatValue.finite 301
  else if v = float301Half then FloatValue.finite (603 / 2)
  else if v = floatHuge then FloatValue.finite 9223372036854775808
  else FloatValue.nan

/-- The conversion `int(v)` on the floats of the examples, with the result of
the amd64 implementation, the smallest `int`, where the language leaves it to
the implementation. -/
def exampleToInt (v : Float64) : Int :=
  if v = float301 then 301
  else if v = float301Half then 301
  else -9223372036854775808

end Builtin

namespace Eskip

/-- The term that the printer renders for the header entry `(k, v)`: the
quote-escaped key and value, each in double quotes, separated by a comma and
one space. -/
def headerTerm (k v : GoString) : GoString :=
  goStr "Header(\"" ++ escape k (goStr "\"") ++ goStr "\", \"" ++ escape v (goStr "\"")
    ++ goStr "\")"

/-- The route with the two header entries `a: 1` and `b: 2`, visited in this
order, and the Shunt backend. -/
def twoHeaderRoute : Route :=
  { emptyRoute with
    Headers := [(goStr "a", goStr "1"), (goStr "b", goStr "2")]
    BackendType := BackendType.ShuntBackend }

/-- The route `twoHeaderRoute` with the ID `r2`, its header entries visited in
the other order. -/
def twoHeaderRouteOtherOrder : Route :=
  { twoHeaderRoute with
    ID := goStr "r2"
    Headers := [(goStr "b", goStr "2"), (goStr "a", goStr "1")] }

/-- The route whose only predicate is the header entry `k: v`. -/
def headerRoute : Route :=
  { emptyRoute with Headers := [(goStr "k", goStr "v")] }

/-! ## The parser of route expressions

The parser is not part of `string.go`.  It is modelled from the grammar and the
lexical rules of the spec; the reader of a number literal (Go's
`strconv.ParseFloat`) is a parameter `readFloat`. -/

/-- Modelled from the spec: white space between tokens ("tolerant of
whitespace"): space, tab, line feed, carriage return. -/
def isSpace (b : Byte) : Bool := b = 32 || b = 9 || b = 10 || b = 13

/-- Modelled from the spec: the bytes of an identifier ("alphanumeric
tokens"): digits and ASCII letters. -/
def isAlnum (b : Byte) : Bool :=
  (48 ≤ b && b ≤ 57) || (65 ≤ b && b ≤ 90) || (97 ≤ b && b ≤ 122)

/-- Modelled from the spec: the bytes of a number literal ("standard
decimal/float lexical form"): digits, sign, decimal point and exponent mark. -/
def isNumberByte (b : Byte) : Bool :=
  (48 ≤ b && b ≤ 57) || b = 43 || b = 45 || b = 46 || b = 101 || b = 69

/-- Modelled from the spec: the text without its leading white space. -/
def skipSpace (s : GoString) : GoString := s.dropWhile isSpace

/-- Modelled from the spec: a literal of an argument list, a string literal, a
regex literal or a number literal. -/
inductive Literal where
  | str (s : GoString)
  | regex (s : GoString)
  | num (v : Float64)
deriving DecidableEq, Repr

/-- Modelled from the spec: a call `name(arg-list)`, the form of a predicate
and of a filter in the grammar. -/
structure Call where
  name : GoString
  args : List Literal
deriving DecidableEq, Repr

/-- Modelled from the spec: the lexer of a string or regex literal behind its
opening delimiter: a backslash escapes the byte behind it, and the first
delimiter that is not escaped ends the literal.  The result is the raw content
and the text behind the closing delimiter; `none` for an unterminated
literal. -/
def readDelimited (delim : Byte) : GoString → Option (GoString × GoString)
  | [] => none
  | [b] => if b = delim then some ([], []) else none
  | b :: c :: rest =>
    if b = delim then some ([], c :: rest)
    else if b = backslash then
      (readDelimited delim rest).map (fun p => (b :: c :: p.1, p.2))
    else
      (readDelimited delim (c :: rest)).map (fun p => (b :: p.1, p.2))

/-- Modelled from the spec: one argument (`arg`): a string literal in double
quotes, a regex literal in slashes (for the built-in predicates), or a number
literal; the content of a string or regex literal is unescaped. -/
def readLiteral (readFloat : GoString → Option Float64) (s : GoString) :
    Option (Literal × GoString) :=
  match s with
  | [] => none
  | b :: rest =>
    if b = 34 then
      (readDelimited 34 rest).map (fun p => (Literal.str (unescape p.1 (goStr "\"")), p.2))
    else if b = 47 then
      (readDelimited 47 rest).map (fun p => (Literal.regex (unescape p.1 (goStr "/")), p.2))
    else
      let token := s.takeWhile isNumberByte
      if token = [] then none
      else (readFloat token).map (fun v => (Literal.num v, s.dropWhile isNumberByte))

/-- Modelled from the spec: the rest of an argument list behind an argument:
any number of `, arg`, then the closing parenthesis.  The fuel bounds the
number of arguments. -/
def readMoreArgs (readFloat : GoString → Option Float64) :
    Nat → GoString → Option (List Literal × GoString)
  | 0, _ => none
  | n + 1, s =>
    match skipSpace s with
    | [] => none
    | b :: rest =>
      if b = 41 then some ([], rest)
      else if b = 44 then
        match readLiteral readFloat (skipSpace rest) with
        | none => none
        | some (a, s1) =>
          (readMoreArgs readFloat n s1).map (fun p => (a :: p.1, p.2))
      else none

/-- Modelled from the spec: an optional argument list and the closing
parenthesis (`arg-list? ")"`). -/
def readArgList (readFloat : GoString → Option Float64) (s : GoString) :
    Option (List Literal × GoString) :=
  match skipSpace s with
  | [] => none
  | b :: rest =>
    if b = 41 then some ([], rest)
    else
      match readLiteral readFloat (b :: rest) with
      | none => none
      | some (a, s1) =>
        (readMoreArgs readFloat s1.length s1).map (fun p => (a :: p.1, p.2))

/-- Modelled from the spec: a call `name "(" arg-list? ")"`. -/
def readCall (readFloat : GoString → Option Float64) (s : GoString) :
    Option (Call × GoString) :=
  let name := s.takeWhile isAlnum
  if name = [] then none
  else
    match skipSpace (s.dropWhile isAlnum) with
    | [] => none
    | b :: rest =>
      if b = 40 then
        (readArgList readFloat rest).map (fun p => ({ name := name, args := p.1 }, p.2))
      else none

/-- Modelled from the spec: an operator of two bytes (`&&`, `->`) behind
optional white space; the result is the text behind it. -/
def expect2 (b1 b2 : Byte) (s : GoString) : Option GoString :=
  match skipSpace s with
  | x :: y :: rest => if x = b1 ∧ y = b2 then some rest else none
  | _ => none

/-- Modelled from the spec: one or more predicates joined by `&&`.  The fuel
bounds the number of predicates. -/
def readPredicates (readFloat : GoString → Option Float64) :
    Nat → GoString → Option (List Call × GoString)
  | 0, _ => none
  | n + 1, s =>
    match readCall readFloat (skipSpace s) with
    | none => none
    | some (c, s1) =>
      match expect2 38 38 s1 with
      | some s2 => (readPredicates readFloat n s2).map (fun p => (c :: p.1, p.2))
      | none => some ([c], s1)

/-- Modelled from the spec: the predicate clause, the wildcard `*` or one or
more predicates joined by `&&`. -/
def readPredicateClause (readFloat : GoString → Option Float64) (s : GoString) :
    Option (List Call × GoString) :=
  match skipSpace s with
  | [] => none
  | b :: rest =>
    if b = 42 then some ([], rest)
    else readPredicates readFloat (b :: rest).length (b :: rest)

/-- Modelled from the spec: the backend of a parsed route: the shunt flag, the
backend kind and the address. -/
structure ParsedBackend where
  Shunt : Bool
  BackendType : BackendType
  Backend : GoString
deriving DecidableEq, Repr

/-- Modelled from the spec: the backend clause: `<shunt>`, `<loopback>`, a
quoted address (the Network kind) or an unquoted address, which runs to the
next white space or semicolon (the kind that the printer prints unquoted). -/
def readBackend (s : GoString) : Option (ParsedBackend × GoString) :=
  if (goStr "<shunt>").isPrefixOf s then
    some ({ Shunt := true, BackendType := BackendType.ShuntBackend, Backend := [] }, s.drop 7)
  else if (goStr "<loopback>").isPrefixOf s then
    some ({ Shunt := false, BackendType := BackendType.LoopBackend, Backend := [] }, s.drop 10)
  else
    match s with
    | [] => none
    | b :: rest =>
      if b = 34 then
        (readDelimited 34 rest).map (fun p =>
          ({ Shunt := false, BackendType := BackendType.NetworkBackend,
             Backend := unescape p.1 (goStr "\"") }, p.2))
      else
        let address := s.takeWhile (fun x => !isSpace x && x != 59)
        if address = [] then none
        else some ({ Shunt := false, BackendType := BackendType.DynamicBackend,
                     Backend := address }, s.dropWhile (fun x => !isSpace x && x != 59))

/-- Modelled from the spec: whether the text starts like a call, an identifier
followed by an opening parenthesis; this tells a filter from a backend. -/
def startsCall (s : GoString) : Bool :=
  match skipSpace (s.dropWhile isAlnum) with
  | [] => false
  | b :: _ => b = 40 && s.takeWhile isAlnum != []

/-- Modelled from the spec: the part of a route expression behind the
predicate clause: `-> filter` any number of times, then `-> backend`.  The
fuel bounds the number of filters. -/
def readChain (readFloat : GoString → Option Float64) :
    Nat → GoString → Option ((List Call × ParsedBackend) × GoString)
  | 0, _ => none
  | n + 1, s =>
    match expect2 45 62 s with
    | none => none
    | some s1 =>
      if startsCall (skipSpace s1) then
        match readCall readFloat (skipSpace s1) with
        | none => none
        | some (c, s2) =>
          (readChain readFloat n s2).map (fun p => ((c :: p.1.1, p.1.2), p.2))
      else
        (readBackend (skipSpace s1)).map (fun p => (([], p.1), p.2))

/-- Modelled from the spec: the optional prefix `id ":"` of a route
definition; the result is the ID (empty without prefix) and the text of the
route expression. -/
def readID (s : GoString) : GoString × GoString :=
  let t := skipSpace s
  let name := t.takeWhile isAlnum
  match skipSpace (t.dropWhile isAlnum) with
  | [] => ([], t)
  | b :: rest => if b = 58 ∧ name ≠ [] then (name, rest) else ([], t)

/-- Modelled from the spec: the argument that a literal of a generic
predicate or of a filter stands for; a regex literal is no argument. -/
def Literal.toArg : Literal → Option Arg
  | Literal.str s => some (Arg.string s)
  | Literal.num v => some (Arg.float64 v)
  | Literal.regex _ => none

/-- Modelled from the spec: the arguments of a call of a generic predicate or
of a filter, `none` when a literal is no argument. -/
def toArgs : List Literal → Option (List Arg)
  | [] => some []
  | l :: ls =>
    match l.toArg, toArgs ls with
    | some a, some as => some (a :: as)
    | _, _ => none

/-- Assignment `m[k] = v` on a Go map given by its entries: an existing key
keeps its place and gets the value, a new key is added. -/
def setHeader (m : List (GoString × GoString)) (k v : GoString) : List (GoString × GoString) :=
  if m.any (fun e => e.1 = k) then m.map (fun e => if e.1 = k then (k, v) else e)
  else m ++ [(k, v)]

/-- The update `m[k] = append(m[k], rx)` on a Go map given by its entries. -/
def addHeaderRegexp (m : List (GoString × List GoString)) (k rx : GoString) :
    List (GoString × List GoString) :=
  if m.any (fun e => e.1 = k) then m.map (fun e => if e.1 = k then (k, e.2 ++ [rx]) else e)
  else m ++ [(k, [rx])]

/-- Modelled from the spec: the reconciliation of one parsed predicate with the
route: a built-in name (`Path`, `Host`, `PathRegexp`, `Method`, `Header`,
`HeaderRegexp`) goes to its dedicated field, with its own check of the number
and the types of the arguments; any other name is a generic predicate. -/
def applyPredicate (r : Route) (c : Call) : Option Route :=
  if c.name = goStr "Path" then
    match c.args with
    | [Literal.str s] => some { r with Path := s }
    | _ => none
  else if c.name = goStr "Host" then
    match c.args with
    | [Literal.regex s] => some { r with HostRegexps := r.HostRegexps ++ [s] }
    | _ => none
  else if c.name = goStr "PathRegexp" then
    match c.args with
    | [Literal.regex s] => some { r with PathRegexps := r.PathRegexps ++ [s] }
    | _ => none
  else if c.name = goStr "Method" then
    match c.args with
    | [Literal.str s] => some { r with Method := s }
    | _ => none
  else if c.name = goStr "Header" then
    match c.args with
    | [Literal.str k, Literal.str v] => some { r with Headers := setHeader r.Headers k v }
    | _ => none
  else if c.name = goStr "HeaderRegexp" then
    match c.args with
    | [Literal.str k, Literal.regex rx] =>
      some { r with HeaderRegexps := addHeaderRegexp r.HeaderRegexps k rx }
    | _ => none
  else
    match toArgs c.args with
    | some args => some { r with Predicates := r.Predicates ++ [{ Name := c.name, Args := args }] }
    | none => none

/-- Modelled from the spec: the reconciliation of the parsed predicates, in
order. -/
def applyPredicates : Route → List Call → Option Route
  | r, [] => some r
  | r, c :: cs =>
    match applyPredicate r c with
    | some r1 => applyPredicates r1 cs
    | none => none

/-- Modelled from the spec: the filters of the parsed filter calls. -/
def toFilters : List Call → Option (List Filter)
  | [] => some []
  | c :: cs =>
    match toArgs c.args, toFilters cs with
    | some args, some fs => some ({ Name := c.name, Args := args } :: fs)
    | _, _ => none

/-- Modelled from the spec: one route definition,
`[ id ":" ] predicate-clause [ "->" filter-chain ] "->" backend`; the result is
the route and the text behind it. -/
def readRoute (readFloat : GoString → Option Float64) (s : GoString) :
    Option (Route × GoString) :=
  let ids := readID s
  match readPredicateClause readFloat ids.2 with
  | none => none
  | some (predicates, s1) =>
    match readChain readFloat s1.length s1 with
    | none => none
    | some ((filters, backend), s2) =>
      match applyPredicates
          { emptyRoute with
            ID := ids.1
            Shunt := backend.Shunt
            BackendType := backend.BackendType
            Backend := backend.Backend } predicates,
        toFilters filters with
      | some r, some fs => some ({ r with Filters := fs }, s2)
      | _, _ => none

/-- Modelled from the spec: a batch, one or more route definitions separated
by `;`.  The fuel bounds the number of routes. -/
def readBatch (readFloat : GoString → Option Float64) :
    Nat → GoString → Option (List Route)
  | 0, _ => none
  | n + 1, s =>
    match readRoute readFloat s with
    | none => none
    | some (r, s1) =>
      match skipSpace s1 with
      | [] => some [r]
      | b :: rest =>
        if b = 59 then (readBatch readFloat n rest).map (fun rs => r :: rs)
        else none

/-- Modelled from the spec: the parser, a function from the text of a batch to
its routes or an error (`none`); duplicate IDs in a batch are an error. -/
def parse (readFloat : GoString → Option Float64) (text : GoString) : Option (List Route) :=
  match readBatch readFloat (text.length + 1) text with
  | none => none
  | some rs =>
    if ((rs.map Route.ID).filter (fun id => id ≠ [])).Nodup then some rs else none

/-! ## The printed form of a parsed route, and valid routes -/

/-- The text that `argsString` renders for a float: `%.0f` for a float without
fraction, `%g` otherwise. -/
def floatText (v : Float64) : GoString := if v.floorIsSelf then v.fmtF0 else v.fmtG

/-- The text of a literal in the printer's form. -/
def Literal.text : Literal → GoString
  | Literal.str s => quoted s
  | Literal.regex s => goStr "/" ++ (escape s (goStr "/") ++ goStr "/")
  | Literal.num v => floatText v

/-- The text of a call in the printer's form: the name, and the literals in
parentheses, joined by a comma and a space. -/
def Call.text (c : Call) : GoString :=
  c.name ++ (goStr "(" ++ (stringsJoin (c.args.map Literal.text) (goStr ", ") ++ goStr ")"))

/-- The literal that a string or float argument is printed as. -/
def argLiteral : Arg → Literal
  | Arg.string s => Literal.str s
  | Arg.float64 v => Literal.num v
  | Arg.other => Literal.str []

/-- The predicates of a route as calls, in the order of the printer. -/
def routeCalls (r : Route) : List Call :=
  (if r.Path ≠ [] then [{ name := goStr "Path", args := [Literal.str r.Path] }] else [])
  ++ r.HostRegexps.map (fun h => { name := goStr "Host", args := [Literal.regex h] })
  ++ r.PathRegexps.map (fun p => { name := goStr "PathRegexp", args := [Literal.regex p] })
  ++ (if r.Method ≠ [] then [{ name := goStr "Method", args := [Literal.str r.Method] }] else [])
  ++ r.Headers.map
      (fun kv => { name := goStr "Header", args := [Literal.str kv.1, Literal.str kv.2] })
  ++ r.HeaderRegexps.flatMap
      (fun krxs => krxs.2.map
        (fun rx => { name := goStr "HeaderRegexp",
                     args := [Literal.str krxs.1, Literal.regex rx] }))
  ++ r.Predicates.map (fun p => { name := p.Name, args := p.Args.map argLiteral })

/-- The filters of a route as calls. -/
def filterCalls (r : Route) : List Call :=
  r.Filters.map (fun f => { name := f.Name, args := f.Args.map argLiteral })

/-- Modelled from the spec: a valid name of a predicate or filter, a non-empty
alphanumeric token. -/
def validName (s : GoString) : Prop := s ≠ [] ∧ ∀ b ∈ s, isAlnum b = true

/-- Modelled from the spec: a valid argument, a string, or a float whose
printed text is a number literal that the number reader reads back as the
float ("Argument values are restricted to string and floating-point
number"). -/
def validArg (readFloat : GoString → Option Float64) : Arg → Prop
  | Arg.string _ => True
  | Arg.float64 v =>
    floatText v ≠ [] ∧ (∀ b ∈ floatText v, isNumberByte b = true)
      ∧ readFloat (floatText v) = some v
  | Arg.other => False

/-- The names of the built-in predicates. -/
def builtinNames : List GoString :=
  [goStr "Path", goStr "Host", goStr "PathRegexp", goStr "Method", goStr "Header",
    goStr "HeaderRegexp"]

/-- Modelled from the spec: a backend in which kind, shunt flag and address
agree: the Shunt kind with the flag and no address, the Loopback kind without
flag and address, or the Network kind without flag and with an address free of
double quotes and backslashes (the printer does not escape the address). -/
def validBackend (r : Route) : Prop :=
  (r.Shunt = true ∧ r.BackendType = BackendType.ShuntBackend ∧ r.Backend = [])
    ∨ (r.Shunt = false ∧ r.BackendType = BackendType.LoopBackend ∧ r.Backend = [])
    ∨ (r.Shunt = false ∧ r.BackendType = BackendType.NetworkBackend
        ∧ ∀ b ∈ r.Backend, b ≠ 34 ∧ b ≠ backslash)

/-- Modelled from the spec: a route with valid field contents: the ID is
alphanumeric (or empty); generic predicates and filters have valid names and
arguments, and no generic predicate has the name of a built-in one; the keys
of the two header maps are distinct and every header regexp key has a regexp;
and the backend is valid. -/
def Route.valid (readFloat : GoString → Option Float64) (r : Route) : Prop :=
  (∀ b ∈ r.ID, isAlnum b = true)
    ∧ (∀ p ∈ r.Predicates, validName p.Name ∧ p.Name ∉ builtinNames
        ∧ ∀ a ∈ p.Args, validArg readFloat a)
    ∧ (∀ f ∈ r.Filters, validName f.Name ∧ ∀ a ∈ f.Args, validArg readFloat a)
    ∧ (r.Headers.map Prod.fst).Nodup
    ∧ (r.HeaderRegexps.map Prod.fst).Nodup
    ∧ (∀ e ∈ r.HeaderRegexps, e.2 ≠ [])
    ∧ validBackend r

/-- A literal that the parser reads back from its printed text: a string, a
regex, or a float that is a valid argument. -/
def validLiteral (readFloat : GoString → Option Float64) : Literal → Prop
  | Literal.str _ => True
  | Literal.regex _ => True
  | Literal.num v => validArg readFloat (Arg.float64 v)

/-- A call with a valid name and valid literals. -/
def validCall (readFloat : GoString → Option Float64) (c : Call) : Prop :=
  validName c.name ∧ ∀ l ∈ c.args, validLiteral readFloat l

/-- The text starts with a byte that is not a byte of a number literal, or is
empty. -/
def endsNumber (rest : GoString) : Prop := ∀ b ∈ rest.head?, isNumberByte b = false


/-- A number reader for the examples: it reads the decimal integers below one
million, written without sign and without a leading zero, and no other text.
Such an integer is a float without fraction, and `%g` and `%.0f` both print it
as the same digits. -/
def readDecimal (s : GoString) : Option Float64 :=
  if s.all (fun b => 48 ≤ b && b ≤ 57) && (1 ≤ s.length && s.length ≤ 6)
      && (s.head? != some 48 || s.length == 1) then
    some { floorIsSelf := true, fmtG := s, fmtF0 := s }
  else none

/-- A route that has every kind of predicate, two entries in each header map,
a float argument, a filter argument with a double quote and a backslash, and
an ID:
`r1: Path("/a b") && Host(/^x[.]org$/) && PathRegexp(/^\/a/) && Method("GET")
&& Header("Accept", "a/b") && Header("X", "1") && HeaderRegexp("Cookie", /s=1/)
&& HeaderRegexp("Cookie", /t=\//) && HeaderRegexp("Y", /z/) && Traffic(42, "g")
-> setPath("/\"b\\") -> "https://example.org"`. -/
def richRoute : Route :=
  { ID := goStr "r1"
    Path := goStr "/a b"
    HostRegexps := [goStr "^x[.]org$"]
    PathRegexps := [goStr "^/a"]
    Method := goStr "GET"
    Headers := [(goStr "Accept", goStr "a/b"), (goStr "X", goStr "1")]
    HeaderRegexps := [(goStr "Cookie", [goStr "s=1", goStr "t=/"]), (goStr "Y", [goStr "z"])]
    Predicates := [{ Name := goStr "Traffic",
                     Args := [Arg.float64 { floorIsSelf := true, fmtG := goStr "42",
                                            fmtF0 := goStr "42" },
                              Arg.string (goStr "g")] }]
    Filters := [{ Name := goStr "setPath", Args := [Arg.string (goStr "/\"b\\")] }]
    Shunt := false
    BackendType := BackendType.NetworkBackend
    Backend := goStr "https://example.org" }

/-! ## Lemmas on the library functions -/

set_option maxRecDepth 20000

theorem stringsJoin_eq_intercalate (l : List GoString) (sep : GoString) :
    stringsJoin l sep = sep.intercalate l := by
  induction l with
  | nil => rfl
  | cons a t ih =>
    cases t with
    | nil => simp [stringsJoin, List.intercalate]
    | cons b t =>
      rw [stringsJoin, ih]
      simp [List.intercalate]

theorem foldl_append_map {α : Type} (f : α → GoString) (l : List α) (init : List GoString) :
    l.foldl (fun acc x => acc ++ [f x]) init = init ++ l.map f := by
  induction l generalizing init with
  | nil => simp
  | cons a t ih => simp [ih]

theorem Sprintf_v (x : GoString) : Sprintf (goStr "%v") [x] = x := by
  show x ++ [] = x
  simp

theorem Sprintf_quote (x : GoString) :
    Sprintf (goStr "\"%s\"") [x] = goStr "\"" ++ (x ++ goStr "\"") := rfl

theorem Sprintf_call (n a : GoString) :
    Sprintf (goStr "%s(%s)") [n, a] = n ++ (goStr "(" ++ (a ++ goStr ")")) := rfl

theorem Sprintf_id (i p : GoString) :
    Sprintf (goStr "%s: %s") [i, p] = i ++ (goStr ": " ++ p) := by
  show i ++ (goStr ": " ++ (p ++ [])) = _
  simp

theorem Sprintf_Path (x : GoString) :
    Sprintf (goStr "Path(\"%s\")") [x] = goStr "Path(" ++ (goStr "\"" ++ (x ++ goStr "\"") ++ goStr ")") := by
  show goStr "Path(\"" ++ (x ++ goStr "\")") = _
  simp [goStr]

theorem goStr_backslash : goStr "\\" = [backslash] := rfl

theorem goStr_backslash2 : goStr "\\\\" = [backslash, backslash] := rfl

theorem flatMap_ext {α β : Type} (f g : α → List β) (l : List α) (h : ∀ x, f x = g x) :
    l.flatMap f = l.flatMap g := by
  rw [funext h]

theorem stringsReplace_byte (c : Byte) (new s : GoString) :
    stringsReplace s [c] new = s.flatMap (fun b => if b = c then new else [b]) := by
  unfold stringsReplace
  induction s with
  | nil => simp [stringsReplaceFrom]
  | cons b rest ih =>
    by_cases h : b = c
    · subst h
      simp [stringsReplaceFrom, ih]
    · have h' : ¬ c = b := fun e => h e.symm
      simp [stringsReplaceFrom, ih, h, h']

theorem replace2_match (x y : Byte) (new t : GoString) :
    stringsReplaceFrom [x, y] new (x :: y :: t) 0 = new ++ stringsReplaceFrom [x, y] new t 0 := by
  simp [stringsReplaceFrom]

theorem replace2_skip (x y a : Byte) (new t : GoString) (h : a ≠ x ∨ t.head? ≠ some y) :
    stringsReplaceFrom [x, y] new (a :: t) 0 = a :: stringsReplaceFrom [x, y] new t 0 := by
  cases t with
  | nil => simp [stringsReplaceFrom]
  | cons b t =>
    have : ¬ (x = a ∧ y = b) := by
      rintro ⟨h1, h2⟩
      rcases h with h | h
      · exact h h1.symm
      · exact h (by simp [h2])
    simp [stringsReplaceFrom, this]

theorem escape_step (done : GoString) (c : Byte) (hc : c ≠ backslash) (hd : c ∉ done) (s : GoString) :
    stringsReplace (s.flatMap (escapeByte done)) [c] (goStr "\\" ++ [c])
      = s.flatMap (escapeByte (done ++ [c])) := by
  rw [stringsReplace_byte, List.flatMap_assoc]
  apply flatMap_ext
  intro b
  unfold escapeByte
  rw [goStr_backslash]
  by_cases h1 : b = backslash
  · subst h1
    simp [Ne.symm hc]
  · by_cases h2 : b ∈ done
    · have : b ≠ c := fun e => hd (e ▸ h2)
      simp [h1, h2, this, Ne.symm hc]
    · by_cases h3 : b = c
      · subst h3
        simp [h1, h2]
      · simp [h1, h2, h3]

theorem escape_foldl (s : GoString) : ∀ (cs done : GoString), backslash ∉ cs → cs.Nodup →
    (∀ c ∈ cs, c ∉ done) →
    cs.foldl (fun s c => stringsReplace s [c] (goStr "\\" ++ [c])) (s.flatMap (escapeByte done))
      = s.flatMap (escapeByte (done ++ cs)) := by
  intro cs
  induction cs with
  | nil => intro done _ _ _; simp
  | cons c cs ih =>
    intro done hbs hnd hdone
    have hc : c ≠ backslash := fun e => hbs (by simp [e])
    rw [List.foldl_cons, escape_step done c hc (hdone c (by simp))]
    rw [ih (done ++ [c]) (fun h => hbs (by simp [h])) (List.nodup_cons.mp hnd).2]
    · simp
    · intro x hx
      have hx1 : x ∉ done := hdone x (by simp [hx])
      have hx2 : x ≠ c := fun e => (List.nodup_cons.mp hnd).1 (e ▸ hx)
      simp [hx1, hx2]

theorem escape_eq_flatMap (s chars : GoString) (hnd : chars.Nodup) (hbs : backslash ∉ chars) :
    escape s chars = s.flatMap (escapeByte chars) := by
  unfold escape
  have h0 : stringsReplace s (goStr "\\") (goStr "\\\\") = s.flatMap (escapeByte []) := by
    rw [goStr_backslash, goStr_backslash2, stringsReplace_byte]
    apply flatMap_ext
    intro b
    by_cases h : b = backslash <;> simp [escapeByte, h]
  rw [h0, escape_foldl s chars [] hbs hnd (by simp)]
  simp

theorem escapeByte_head (c : Byte) (cs : GoString) (hc : c ≠ backslash) (s : GoString) :
    (s.flatMap (escapeByte (c :: cs))).head? ≠ some c := by
  cases s with
  | nil => simp
  | cons b t =>
    rw [List.flatMap_cons]
    by_cases h : b = backslash ∨ b ∈ c :: cs
    · have e : escapeByte (c :: cs) b = [backslash, b] := by
        unfold escapeByte; rw [if_pos h]
      rw [e]
      simp [Ne.symm hc]
    · have e : escapeByte (c :: cs) b = [b] := by
        unfold escapeByte; rw [if_neg h]
      have : b ≠ c := fun e => h (Or.inr (by simp [e]))
      rw [e]
      simp [this]

theorem unescape_scan (c : Byte) (cs : GoString) (hc : c ≠ backslash) (hcs : c ∉ cs)
    (s : GoString) :
    stringsReplaceFrom [backslash, c] [c] (s.flatMap (escapeByte (c :: cs))) 0
      = s.flatMap (escapeByte cs) := by
  induction s with
  | nil => simp [stringsReplaceFrom]
  | cons b t ih =>
    have hhead := escapeByte_head c cs hc t
    rw [List.flatMap_cons, List.flatMap_cons]
    by_cases h1 : b = backslash
    · subst h1
      have e1 : escapeByte (c :: cs) backslash = [backslash, backslash] := by simp [escapeByte]
      have e2 : escapeByte cs backslash = [backslash, backslash] := by simp [escapeByte]
      rw [e1, e2]
      simp only [List.cons_append, List.nil_append]
      rw [replace2_skip _ _ _ _ _ (Or.inr (by simp [Ne.symm hc])),
        replace2_skip _ _ _ _ _ (Or.inr hhead), ih]
    · by_cases h2 : b = c
      · subst h2
        have e1 : escapeByte (b :: cs) b = [backslash, b] := by simp [escapeByte]
        have e2 : escapeByte cs b = [b] := by simp [escapeByte, h1, hcs]
        rw [e1, e2]
        simp only [List.cons_append, List.nil_append]
        rw [replace2_match, ih]
        rfl
      · by_cases h3 : b ∈ cs
        · have e1 : escapeByte (c :: cs) b = [backslash, b] := by simp [escapeByte, h3]
          have e2 : escapeByte cs b = [backslash, b] := by simp [escapeByte, h3]
          rw [e1, e2]
          simp only [List.cons_append, List.nil_append]
          rw [replace2_skip _ _ _ _ _ (Or.inr (by simp [h2])),
            replace2_skip _ _ _ _ _ (Or.inl h1), ih]
        · have e1 : escapeByte (c :: cs) b = [b] := by simp [escapeByte, h1, h2, h3]
          have e2 : escapeByte cs b = [b] := by simp [escapeByte, h1, h3]
          rw [e1, e2]
          simp only [List.cons_append, List.nil_append]
          rw [replace2_skip _ _ _ _ _ (Or.inl h1), ih]

theorem unescape_foldl (s : GoString) : ∀ (cs : GoString), backslash ∉ cs → cs.Nodup →
    cs.foldl (fun s c => stringsReplace s (goStr "\\" ++ [c]) [c]) (s.flatMap (escapeByte cs))
      = s.flatMap (escapeByte []) := by
  intro cs
  induction cs with
  | nil => intro _ _; simp
  | cons c cs ih =>
    intro hbs hnd
    have hc : c ≠ backslash := fun e => hbs (by simp [e])
    have hstep : stringsReplace (s.flatMap (escapeByte (c :: cs))) (goStr "\\" ++ [c]) [c]
        = s.flatMap (escapeByte cs) := unescape_scan c cs hc (List.nodup_cons.mp hnd).1 s
    rw [List.foldl_cons, hstep, ih (fun h => hbs (by simp [h])) (List.nodup_cons.mp hnd).2]

theorem collapse_scan (s : GoString) :
    stringsReplaceFrom [backslash, backslash] [backslash] (s.flatMap (escapeByte [])) 0 = s := by
  induction s with
  | nil => simp [stringsReplaceFrom]
  | cons b t ih =>
    rw [List.flatMap_cons]
    by_cases h1 : b = backslash
    · subst h1
      have e1 : escapeByte [] backslash = [backslash, backslash] := by simp [escapeByte]
      rw [e1]
      simp only [List.cons_append, List.nil_append]
      rw [replace2_match, ih]
      rfl
    · have e1 : escapeByte [] b = [b] := by simp [escapeByte, h1]
      rw [e1]
      simp only [List.cons_append, List.nil_append]
      rw [replace2_skip _ _ _ _ _ (Or.inl h1), ih]

theorem unescape_escape_aux (s chars : GoString) (hnd : chars.Nodup) (hbs : backslash ∉ chars) :
    unescape (escape s chars) chars = s := by
  rw [escape_eq_flatMap s chars hnd hbs]
  unfold unescape
  rw [unescape_foldl s chars hbs hnd]
  exact collapse_scan s

theorem Sprintf_Host (x : GoString) :
    Sprintf (goStr "Host(/%s/)") [x] = goStr "Host(/" ++ (x ++ goStr "/)") := rfl

theorem Sprintf_PathRegexp (x : GoString) :
    Sprintf (goStr "PathRegexp(/%s/)") [x] = goStr "PathRegexp(/" ++ (x ++ goStr "/)") := rfl

theorem Sprintf_Method (x : GoString) :
    Sprintf (goStr "Method(\"%s\")") [x]
      = goStr "Method(" ++ (goStr "\"" ++ (x ++ goStr "\"") ++ goStr ")") := by
  show goStr "Method(\"" ++ (x ++ goStr "\")") = _
  simp [goStr]

theorem Sprintf_Header (k v : GoString) :
    Sprintf (goStr "Header(\"%s\", \"%s\")") [k, v]
      = goStr "Header(" ++ (goStr "\"" ++ (k ++ goStr "\"") ++
          (goStr ", " ++ (goStr "\"" ++ (v ++ goStr "\"") ++ goStr ")"))) := by
  show goStr "Header(\"" ++ (k ++ (goStr "\", \"" ++ (v ++ goStr "\")"))) = _
  simp [goStr]

theorem Sprintf_HeaderRegexp (k rx : GoString) :
    Sprintf (goStr "HeaderRegexp(\"%s\", /%s/)") [k, rx]
      = goStr "HeaderRegexp(" ++ (goStr "\"" ++ (k ++ goStr "\"") ++
          (goStr ", /" ++ (rx ++ goStr "/)"))) := by
  show goStr "HeaderRegexp(\"" ++ (k ++ (goStr "\", /" ++ (rx ++ goStr "/)"))) = _
  simp [goStr]

theorem foldl_append_flatMap {α : Type} (f : α → List GoString) (l : List α)
    (init : List GoString) :
    l.foldl (fun acc x => acc ++ f x) init = init ++ l.flatMap f := by
  induction l generalizing init with
  | nil => simp
  | cons a t ih => simp [ih]

theorem foldl_append_filter_map {α : Type} (c : α → Prop) [DecidablePred c] (f : α → GoString)
    (l : List α) (init : List GoString) :
    l.foldl (fun acc x => if c x then acc ++ [f x] else acc) init
      = init ++ (l.filter (fun x => decide (c x))).map f := by
  induction l generalizing init with
  | nil => simp
  | cons a t ih =>
    by_cases h : c a <;> simp [ih, h]

theorem wildcard_of_terms (L T : List GoString) (h : L = T) (sep : GoString) :
    stringsJoin (if L.length = 0 then L ++ [goStr "*"] else L) sep
      = stringsJoin (if T = [] then [goStr "*"] else T) sep := by
  subst h
  by_cases hL : L = []
  · simp [hL]
  · simp [hL]

theorem predicateString_eq (r : Route) :
    r.predicateString
      = stringsJoin (if predicateTerms r = [] then [goStr "*"] else predicateTerms r)
          (goStr " && ") := by
  unfold Route.predicateString
  simp only [appendFmtEscape, appendFmt, List.map, Sprintf_v, Sprintf_Host, Sprintf_PathRegexp,
    Sprintf_Path, Sprintf_Method, Sprintf_Header, Sprintf_HeaderRegexp, Sprintf_call,
    foldl_append_filter_map (fun p : Predicate => p.Name ≠ goStr "Any"), foldl_append_map,
    foldl_append_flatMap]
  apply wildcard_of_terms
  unfold predicateTerms quoted callText
  by_cases hp : r.Path = [] <;> by_cases hm : r.Method = [] <;> simp [hp, hm]

theorem stringsJoin_cons_cons (a b : GoString) (t : List GoString) (sep : GoString) :
    stringsJoin (a :: b :: t) sep = a ++ (sep ++ stringsJoin (b :: t) sep) := by
  simp [stringsJoin]

theorem stringsJoin_head_mem (x : Byte) (a : GoString) (t : List GoString) (sep : GoString)
    (h : x ∈ a) : x ∈ stringsJoin (a :: t) sep := by
  cases t with
  | nil => simpa [stringsJoin] using h
  | cons b t => rw [stringsJoin_cons_cons]; exact List.mem_append_left _ h

theorem paren_mem_predicateTerms (r : Route) : ∀ t ∈ predicateTerms r, (40 : Byte) ∈ t := by
  have hPath : (40 : Byte) ∈ goStr "Path(" := by decide
  have hHost : (40 : Byte) ∈ goStr "Host(/" := by decide
  have hPathRegexp : (40 : Byte) ∈ goStr "PathRegexp(/" := by decide
  have hMethod : (40 : Byte) ∈ goStr "Method(" := by decide
  have hHeader : (40 : Byte) ∈ goStr "Header(" := by decide
  have hHeaderRegexp : (40 : Byte) ∈ goStr "HeaderRegexp(" := by decide
  have hParen : (40 : Byte) ∈ goStr "(" := by decide
  intro t ht
  unfold predicateTerms callText at ht
  simp only [List.mem_append, List.mem_map, List.mem_flatMap, List.mem_filter] at ht
  rcases ht with ((((((ht | ht) | ht) | ht) | ht) | ht) | ht)
  · by_cases hp : r.Path = []
    · simp [hp] at ht
    · simp only [ne_eq, hp, not_false_eq_true, if_true, List.mem_singleton] at ht
      rw [ht]; exact List.mem_append_left _ hPath
  · obtain ⟨h, _, rfl⟩ := ht
    exact List.mem_append_left _ hHost
  · obtain ⟨h, _, rfl⟩ := ht
    exact List.mem_append_left _ hPathRegexp
  · by_cases hm : r.Method = []
    · simp [hm] at ht
    · simp only [ne_eq, hm, not_false_eq_true, if_true, List.mem_singleton] at ht
      rw [ht]; exact List.mem_append_left _ hMethod
  · obtain ⟨h, _, rfl⟩ := ht
    exact List.mem_append_left _ hHeader
  · obtain ⟨krxs, _, rx, _, rfl⟩ := ht
    exact List.mem_append_left _ hHeaderRegexp
  · obtain ⟨p, _, rfl⟩ := ht
    exact List.mem_append_right _ (List.mem_append_left _ hParen)

theorem predicateTerms_eq_nil_iff (r : Route) :
    predicateTerms r = [] ↔
      r.Path = [] ∧ r.HostRegexps = [] ∧ r.PathRegexps = [] ∧ r.Method = [] ∧ r.Headers = [] ∧
      (∀ krxs ∈ r.HeaderRegexps, krxs.2 = []) ∧ (∀ p ∈ r.Predicates, p.Name = goStr "Any") := by
  unfold predicateTerms
  by_cases hp : r.Path = [] <;> by_cases hm : r.Method = [] <;>
    simp [hp, hm, List.filter_eq_nil_iff, and_assoc]

theorem predicateString_wildcard_iff (r : Route) :
    r.predicateString = goStr "*" ↔ predicateTerms r = [] := by
  rw [predicateString_eq]
  constructor
  · intro h
    by_contra hne
    rw [if_neg hne] at h
    have hstar : (40 : Byte) ∉ goStr "*" := by decide
    apply hstar
    rw [← h]
    cases hT : predicateTerms r with
    | nil => exact absurd hT hne
    | cons a t =>
      apply stringsJoin_head_mem
      apply paren_mem_predicateTerms r
      rw [hT]
      exact List.mem_cons_self _ _
  · intro h
    rw [if_pos h]
    rfl

theorem stringsJoin_append_singleton (l : List GoString) (b sep : GoString) (h : l ≠ []) :
    stringsJoin (l ++ [b]) sep = stringsJoin l sep ++ (sep ++ b) := by
  induction l with
  | nil => exact absurd rfl h
  | cons a t ih =>
    cases t with
    | nil => simp [stringsJoin]
    | cons c t =>
      have := ih (by simp)
      rw [List.cons_append, List.cons_append, stringsJoin_cons_cons, stringsJoin_cons_cons,
        ← List.cons_append, this]
      simp

theorem stringsJoin_ne_nil (a : GoString) (t : List GoString) (sep : GoString) (h : a ≠ []) :
    stringsJoin (a :: t) sep ≠ [] := by
  cases t with
  | nil => simpa [stringsJoin] using h
  | cons b t => rw [stringsJoin_cons_cons]; simp [h]

theorem callText_ne_nil (name : GoString) (args : List Arg) : callText name args ≠ [] := by
  have hParen : goStr "(" ≠ [] := by decide
  unfold callText
  simp [hParen]

theorem filterString_eq (r : Route) (pretty : Bool) :
    r.filterString pretty
      = stringsJoin (r.Filters.map (fun f => callText f.Name f.Args)) (separator pretty) := by
  unfold Route.filterString separator callText
  simp only [appendFmt, Sprintf_call, foldl_append_map, List.nil_append]
  cases pretty <;> simp

theorem filterString_eq_nil_iff (r : Route) (pretty : Bool) :
    r.filterString pretty = [] ↔ r.Filters = [] := by
  rw [filterString_eq]
  cases hF : r.Filters with
  | nil => simp [stringsJoin]
  | cons f t =>
    simp only [List.map_cons, reduceCtorEq, iff_false]
    exact stringsJoin_ne_nil _ _ _ (callText_ne_nil _ _)

theorem Route_Print_eq (r : Route) (pretty : Bool) :
    r.Print pretty
      = stringsJoin
          ([r.predicateString] ++ r.Filters.map (fun f => callText f.Name f.Args)
            ++ [r.backendStringQuoted])
          (separator pretty) := by
  have hsep : (if pretty = true then goStr "\n  -> " else goStr " -> ") = separator pretty := rfl
  unfold Route.Print
  simp only [hsep]
  by_cases hF : r.Filters = []
  · have hfs : r.filterString pretty = [] := (filterString_eq_nil_iff r pretty).mpr hF
    simp [hfs, hF]
  · have hfs : r.filterString pretty ≠ [] := fun h => hF ((filterString_eq_nil_iff r pretty).mp h)
    simp only [ne_eq, hfs, not_false_eq_true, if_true]
    rw [filterString_eq] at hfs ⊢
    cases hL : r.Filters.map (fun f => callText f.Name f.Args) with
    | nil => simp [hF] at hL
    | cons a t =>
      have h1 := stringsJoin_append_singleton (a :: t) r.backendStringQuoted (separator pretty)
        (by simp)
      simp only [List.cons_append] at h1
      rw [stringsJoin_append_singleton _ _ _ (by simp),
        stringsJoin_append_singleton _ _ _ (by simp)]
      have h2 : stringsJoin [r.predicateString] (separator pretty) = r.predicateString := rfl
      rw [h2]
      simp only [List.singleton_append, List.cons_append, List.nil_append, stringsJoin_cons_cons,
        h1, List.append_assoc]

theorem argsString_strings (ss : List GoString) :
    argsString (ss.map Arg.string) = stringsJoin (ss.map quoted) (goStr ", ") := by
  unfold argsString quoted
  simp only [appendFmtEscape, appendFmt, List.map, Sprintf_v, Sprintf_quote, List.foldl_map,
    foldl_append_map, List.nil_append]

theorem backendStringQuoted_eq (r : Route) :
    r.backendStringQuoted =
      if r.Shunt = true ∨ r.BackendType = BackendType.ShuntBackend then goStr "<shunt>"
      else if r.BackendType = BackendType.LoopBackend then goStr "<loopback>"
      else if r.BackendType = BackendType.NetworkBackend then
        goStr "\"" ++ (r.Backend ++ goStr "\"")
      else r.Backend := by
  unfold Route.backendStringQuoted Route.backendString
  cases hS : r.Shunt <;> cases hB : r.BackendType <;> simp [Sprintf_quote]

theorem Print_single (pretty : Bool) (r : Route) (h : r.ID = []) :
    Print pretty [r] = r.Print pretty := by
  simp [Print, h]

theorem Print_batch (pretty : Bool) (routes : List Route)
    (h : ∀ r, r.ID = [] → routes ≠ [r]) :
    Print pretty routes
      = stringsJoin (routes.map (fun r => r.ID ++ (goStr ": " ++ r.Print pretty))) (goStr ";\n") := by
  unfold Print
  simp only [Sprintf_id]
  split
  · rename_i r0
    have : r0.ID ≠ [] := fun e => h r0 e rfl
    simp [this]
  · rfl

theorem sameAs_refl (r : Route) : r.sameAs r :=
  ⟨rfl, rfl, rfl, rfl, rfl, List.Perm.refl _, List.Perm.refl _, rfl, rfl, rfl, rfl, rfl⟩

theorem predicateTerms_withoutAny (r : Route) : predicateTerms r.withoutAny = predicateTerms r := by
  unfold predicateTerms Route.withoutAny
  simp only [List.filter_filter, Bool.and_self]

theorem Route_Print_withoutAny (r : Route) (pretty : Bool) :
    r.withoutAny.Print pretty = r.Print pretty := by
  have hp : r.withoutAny.predicateString = r.predicateString := by
    rw [predicateString_eq, predicateString_eq, predicateTerms_withoutAny]
  unfold Route.Print
  rw [hp]
  rfl

theorem Print_withoutAny (r : Route) (pretty : Bool) :
    Print pretty [r.withoutAny] = Print pretty [r] := by
  unfold Print
  simp only [List.map, Route_Print_withoutAny]
  rfl

theorem withoutAny_eq_self_iff (r : Route) :
    r.withoutAny.Predicates = r.Predicates ↔ ∀ p ∈ r.Predicates, p.Name ≠ goStr "Any" := by
  unfold Route.withoutAny
  simp [List.filter_eq_self]

/-! ## The claims -/

/-- C1: for every route and both modes, `Route.Print` is the predicate clause,
then one `Name(args)` text per filter in stored order, then the backend clause,
joined by the separator; with no filters the output is the predicate clause,
one separator and the backend clause; and the scenario route prints in compact
form as `Path("/foo") && Method("GET") -> setPath("/bar") -> "https://example.org"`. -/
theorem route_print_joins_clauses (r : Route) (pretty : Bool) :
    r.Print pretty
        = (separator pretty).intercalate
            ([r.predicateString] ++ r.Filters.map (fun f => callText f.Name f.Args)
              ++ [r.backendStringQuoted])
      ∧ ({ r with Filters := [] } : Route).Print pretty
        = r.predicateString ++ separator pretty ++ r.backendStringQuoted
      ∧ scenarioRoute.Print false
        = goStr "Path(\"/foo\") && Method(\"GET\") -> setPath(\"/bar\") -> \"https://example.org\"" := by
  refine ⟨?_, ?_, ?_⟩
  · rw [Route_Print_eq, stringsJoin_eq_intercalate]
  · rw [Route_Print_eq]
    simp only [List.map_nil, List.append_nil, List.singleton_append, stringsJoin_cons_cons,
      List.append_assoc]
    rfl
  · rfl

/-- C2: the package-level `Print` returns the route's own print, without ID
prefix, for a single route with empty ID; in every other case it returns the
texts `ID: ` followed by the route's print, in input order, joined by `;` and a
newline; the batch scenario prints as `r1: Path("/a") -> <shunt>;\nr2: * -> <loopback>`. -/
theorem print_batch_ids (pretty : Bool) :
    (∀ r : Route, r.ID = [] → Print pretty [r] = r.Print pretty)
      ∧ (∀ routes : List Route, (¬ ∃ r, routes = [r] ∧ r.ID = []) →
          Print pretty routes
            = (goStr ";\n").intercalate
                (routes.map (fun r => r.ID ++ goStr ": " ++ r.Print pretty)))
      ∧ Print false scenarioBatch
        = goStr "r1: Path(\"/a\") -> <shunt>;\nr2: * -> <loopback>" := by
  refine ⟨fun r h => Print_single pretty r h, ?_, ?_⟩
  · intro routes h
    rw [Print_batch pretty routes (fun r hr e => h ⟨r, e, hr⟩), stringsJoin_eq_intercalate]
    simp only [List.append_assoc]
  · rfl

/-- C2, at concrete inputs: one route with the ID `r1` prints behind its ID, and
two routes without ID print behind empty IDs. -/
theorem print_batch_ids_witness :
    Print false [{ emptyRoute with ID := goStr "r1" }] = goStr "r1: * -> \"\""
      ∧ Print false [emptyRoute, emptyRoute] = goStr ": * -> \"\";\n: * -> \"\"" :=
  ⟨((print_batch_ids false).2.1 [{ emptyRoute with ID := goStr "r1" }]
      (by rintro ⟨r, h, hid⟩; cases h; exact absurd hid (by decide))).trans (by rfl),
    ((print_batch_ids false).2.1 [emptyRoute, emptyRoute] (by simp)).trans (by rfl)⟩

/-- C3 fails at the route without predicates: no term is rendered, the join of
the terms is the empty text, and the predicate clause is `*`. -/
theorem predicate_clause_empty_route :
    predicateTerms emptyRoute = []
      ∧ emptyRoute.predicateString = goStr "*"
      ∧ emptyRoute.predicateString ≠ (goStr " && ").intercalate (predicateTerms emptyRoute) := by
  refine ⟨rfl, rfl, ?_⟩
  decide

/-- C3, amended: for every route that renders at least one predicate term, the
predicate clause is the ` && `-join of the terms of `predicateTerms` (`Path`,
`Host` terms, `PathRegexp` terms, `Method`, `Header` terms, `HeaderRegexp`
terms, generic predicates not named `Any`, in this order, string contents
escaped for the double quote and regexp contents for the slash); for a route
that renders no term it is `*`. -/
theorem predicate_clause_joins_terms (r : Route) :
    r.predicateString
      = if predicateTerms r = [] then goStr "*"
        else (goStr " && ").intercalate (predicateTerms r) := by
  rw [predicateString_eq]
  by_cases h : predicateTerms r = []
  · rw [if_pos h, if_pos h]; rfl
  · rw [if_neg h, if_neg h, stringsJoin_eq_intercalate]

/-- C4: the backend clause is `<shunt>` when the Shunt flag is set or the kind
is Shunt, whatever the Backend string; otherwise `<loopback>` for the Loopback
kind; otherwise the Backend string in double quotes, verbatim, for the Network
kind; and the raw Backend string for any other kind. -/
theorem backend_clause_cases (r : Route) :
    r.backendStringQuoted =
      if r.Shunt = true ∨ r.BackendType = BackendType.ShuntBackend then goStr "<shunt>"
      else if r.BackendType = BackendType.LoopBackend then goStr "<loopback>"
      else if r.BackendType = BackendType.NetworkBackend then
        goStr "\"" ++ r.Backend ++ goStr "\""
      else r.Backend := by
  rw [backendStringQuoted_eq]
  simp only [List.append_assoc]

/-- C5: for every string `s` and every set `chars` of distinct special bytes
without the backslash, `escape s chars` is the byte-by-byte translation of `s`
that puts a backslash before each backslash and each byte of `chars` and keeps
every other byte. -/
theorem escape_translates_bytes (s chars : GoString) (hnd : chars.Nodup)
    (hbs : backslash ∉ chars) :
    escape s chars
      = s.flatMap (fun b => if b = backslash ∨ b ∈ chars then [backslash, b] else [b]) :=
  escape_eq_flatMap s chars hnd hbs

/-- C5 at a concrete input: the text `a\"b/` (backslash, then double quote,
in the middle) escaped for the double quote is `a\\\"b/`; the slash is kept. -/
theorem escape_translates_bytes_witness :
    (goStr "\"").Nodup ∧ backslash ∉ goStr "\""
      ∧ escape (goStr "a\\\"b/") (goStr "\"") = goStr "a\\\\\\\"b/" :=
  ⟨by decide, by decide,
    (escape_translates_bytes (goStr "a\\\"b/") (goStr "\"") (by decide) (by decide)).trans
      (by decide)⟩

/-- C6: for every set `chars` of distinct special bytes without the backslash,
the two-phase `unescape` of the spec applied to `escape s chars` returns `s`
for every `s`, and `escape` is injective in `s`. -/
theorem unescape_escape (chars : GoString) (hnd : chars.Nodup) (hbs : backslash ∉ chars) :
    (∀ s, unescape (escape s chars) chars = s)
      ∧ Function.Injective (fun s => escape s chars) := by
  have h : ∀ s, unescape (escape s chars) chars = s :=
    fun s => unescape_escape_aux s chars hnd hbs
  refine ⟨h, ?_⟩
  intro a b hab
  have := congrArg (fun t => unescape t chars) hab
  simpa [h] using this

/-- C6 in the two quoting contexts: string literals (special byte `"`) and
regexp literals (special byte `/`). -/
theorem unescape_escape_witness :
    (∀ s, unescape (escape s (goStr "\"")) (goStr "\"") = s)
      ∧ (∀ s, unescape (escape s (goStr "/")) (goStr "/") = s) :=
  ⟨(unescape_escape (goStr "\"") (by decide) (by decide)).1,
    (unescape_escape (goStr "/") (by decide) (by decide)).1⟩

/-- C7: for a list of string arguments, `argsString` is the arguments in order,
each as a double quote, the quote-escaped argument and a double quote, joined
by a comma and one space; the empty list gives the empty string. -/
theorem args_string_of_strings (ss : List GoString) :
    argsString (ss.map Arg.string)
        = (goStr ", ").intercalate
            (ss.map (fun s => goStr "\"" ++ escape s (goStr "\"") ++ goStr "\""))
      ∧ argsString [] = []
      ∧ argsString [Arg.string (goStr "a\"b"), Arg.string (goStr "c")]
        = goStr "\"a\\\"b\", \"c\"" := by
  refine ⟨?_, rfl, by rfl⟩
  rw [argsString_strings, stringsJoin_eq_intercalate]
  unfold quoted
  simp only [List.append_assoc]

/-- C8: the predicate clause is exactly `*` if and only if no predicate term is
rendered: Path and Method are empty, there are no host or path regexps and no
header, no header key has a regexp, and every generic predicate is named `Any`;
the route without predicates prints `*`. -/
theorem predicate_clause_wildcard_iff (r : Route) :
    (r.predicateString = goStr "*" ↔
        r.Path = [] ∧ r.HostRegexps = [] ∧ r.PathRegexps = [] ∧ r.Method = [] ∧
        r.Headers = [] ∧ (∀ krxs ∈ r.HeaderRegexps, krxs.2 = []) ∧
        (∀ p ∈ r.Predicates, p.Name = goStr "Any"))
      ∧ emptyRoute.predicateString = goStr "*" := by
  refine ⟨?_, rfl⟩
  rw [predicateString_wildcard_iff, predicateTerms_eq_nil_iff]

/-- C9 fails on routes that mix `Any` with other predicates: `anyRoute` (generic
predicates `Any()` and `Foo("x")`) and the same route without `Any()` both have
a non-empty predicate clause, are different routes and print as the same text,
so no parser returns each of them from its own compact print. -/
theorem roundtrip_fails_with_any :
    predicateTerms anyRoute ≠ [] ∧ predicateTerms anyRoute.withoutAny ≠ []
      ∧ (∃ p ∈ anyRoute.Predicates, p.Name ≠ goStr "Any")
      ∧ ¬ anyRoute.sameAs anyRoute.withoutAny
      ∧ Print false [anyRoute] = Print false [anyRoute.withoutAny]
      ∧ Print false [anyRoute]
        = goStr ("Path(\"/foo\") && Method(\"GET\") && Foo(\"x\") -> setPath(\"/bar\")"
            ++ " -> \"https://example.org\"")
      ∧ ¬ ∃ parse, RoundTrip parse anyRoute ∧ RoundTrip parse anyRoute.withoutAny := by
  have hne : ¬ anyRoute.sameAs anyRoute.withoutAny := by
    intro h
    have hp := h.2.2.2.2.2.2.2.1
    revert hp
    decide
  refine ⟨by decide, by decide, ⟨⟨goStr "Foo", [Arg.string (goStr "x")]⟩, by decide, by decide⟩,
    hne, (Print_withoutAny anyRoute false).symm, by rfl, ?_⟩
  rintro ⟨parse, ⟨r1, h1, s1⟩, ⟨r2, h2, s2⟩⟩
  rw [Print_withoutAny] at h2
  rw [h1] at h2
  have e : r1 = r2 := by simpa using h2
  subst e
  have hp : anyRoute.Predicates = anyRoute.withoutAny.Predicates :=
    s1.2.2.2.2.2.2.2.1.symm.trans s2.2.2.2.2.2.2.2.1
  revert hp
  decide

end Eskip

/-! # Header terms, route identifiers and argument lists -/

set_option maxRecDepth 20000

namespace Eskip

theorem mem_infix_stringsJoin (x : GoString) (l : List GoString) (sep : GoString) (h : x ∈ l) :
    x <:+: stringsJoin l sep := by
  induction l with
  | nil => simp at h
  | cons a t ih =>
    cases t with
    | nil =>
      simp only [List.mem_singleton] at h
      subst h
      exact List.infix_refl _
    | cons b t =>
      rw [stringsJoin_cons_cons]
      rcases List.mem_cons.mp h with h | h
      · subst h
        exact ⟨[], sep ++ stringsJoin (b :: t) sep, by simp⟩
      · obtain ⟨p, s, hps⟩ := ih h
        exact ⟨a ++ sep ++ p, s, by simp [← hps]⟩

theorem headerTerm_mem (r : Route) (k v : GoString) (h : (k, v) ∈ r.Headers) :
    headerTerm k v ∈ predicateTerms r := by
  unfold predicateTerms headerTerm quoted
  simp only [List.mem_append, List.mem_map]
  refine Or.inl (Or.inl (Or.inr ⟨(k, v), h, ?_⟩))
  simp [goStr]

theorem escapeByte_quote_cases (b : Byte) :
    (escapeByte (goStr "\"") b = [backslash, b] ∧ (b = backslash ∨ b = 34))
      ∨ (escapeByte (goStr "\"") b = [b] ∧ b ≠ backslash ∧ b ≠ 34) := by
  have hq : goStr "\"" = [34] := rfl
  rw [hq]
  unfold escapeByte
  by_cases h : b = backslash ∨ b ∈ ([34] : List Byte)
  · rw [if_pos h]
    exact Or.inl ⟨rfl, by simpa using h⟩
  · rw [if_neg h]
    refine Or.inr ⟨rfl, fun e => h (Or.inl e), fun e => h (Or.inr (by simp [e]))⟩

theorem escaped_cancel : ∀ (x y t t' : GoString),
    x.flatMap (escapeByte (goStr "\"")) ++ 34 :: t
      = y.flatMap (escapeByte (goStr "\"")) ++ 34 :: t' → x = y ∧ t = t' := by
  have hbs : (34 : Byte) ≠ backslash := by decide
  intro x
  induction x with
  | nil =>
    intro y t t' h
    cases y with
    | nil => simpa using h
    | cons b y =>
      rw [List.flatMap_nil, List.nil_append, List.flatMap_cons] at h
      rcases escapeByte_quote_cases b with ⟨e, _⟩ | ⟨e, _, h34⟩
      · rw [e] at h
        simp only [List.cons_append, List.nil_append, List.cons.injEq] at h
        exact absurd h.1 hbs
      · rw [e] at h
        simp only [List.cons_append, List.nil_append, List.cons.injEq] at h
        exact absurd h.1.symm h34
  | cons a x ih =>
    intro y t t' h
    cases y with
    | nil =>
      rw [List.flatMap_nil, List.nil_append, List.flatMap_cons] at h
      rcases escapeByte_quote_cases a with ⟨e, _⟩ | ⟨e, _, h34⟩
      · rw [e] at h
        simp only [List.cons_append, List.nil_append, List.cons.injEq] at h
        exact absurd h.1.symm hbs
      · rw [e] at h
        simp only [List.cons_append, List.nil_append, List.cons.injEq] at h
        exact absurd h.1 h34
    | cons b y =>
      rw [List.flatMap_cons, List.flatMap_cons] at h
      rcases escapeByte_quote_cases a with ⟨ea, _⟩ | ⟨ea, hab, _⟩ <;>
        rcases escapeByte_quote_cases b with ⟨eb, _⟩ | ⟨eb, hbb, _⟩ <;>
        rw [ea, eb] at h <;>
        simp only [List.cons_append, List.nil_append, List.cons.injEq, true_and] at h
      · obtain ⟨hab', hrest⟩ := h
        obtain ⟨hxy, htt⟩ := ih y t t' hrest
        exact ⟨by rw [hab', hxy], htt⟩
      · exact absurd h.1.symm hbb
      · exact absurd h.1 hab
      · obtain ⟨hab', hrest⟩ := h
        obtain ⟨hxy, htt⟩ := ih y t t' hrest
        exact ⟨by rw [hab', hxy], htt⟩

/-- The text that `strings.Join` puts behind the first element: nothing when
no element follows, otherwise the separator and the join of the rest. -/
theorem stringsJoin_cons (a : GoString) (t : List GoString) (sep : GoString) :
    stringsJoin (a :: t) sep = a ++ (if t = [] then [] else sep ++ stringsJoin t sep) := by
  cases t with
  | nil => simp [stringsJoin]
  | cons b t => rw [stringsJoin_cons_cons]; simp

theorem quoted_eq (x : GoString) :
    quoted x = 34 :: (x.flatMap (escapeByte (goStr "\"")) ++ [34]) := by
  unfold quoted
  rw [escape_eq_flatMap x (goStr "\"") (by decide) (by decide)]
  rfl

theorem stringsJoin_quoted_injective : ∀ (xs ys : List GoString),
    stringsJoin (xs.map quoted) (goStr ", ") = stringsJoin (ys.map quoted) (goStr ", ") →
      xs = ys := by
  intro xs
  induction xs with
  | nil =>
    intro ys h
    cases ys with
    | nil => rfl
    | cons y ys =>
      rw [List.map_nil, List.map_cons, stringsJoin_cons, quoted_eq] at h
      simp [stringsJoin] at h
  | cons x xs ih =>
    intro ys h
    cases ys with
    | nil =>
      rw [List.map_nil, List.map_cons, stringsJoin_cons, quoted_eq] at h
      simp [stringsJoin] at h
    | cons y ys =>
      rw [List.map_cons, List.map_cons, stringsJoin_cons, stringsJoin_cons, quoted_eq,
        quoted_eq] at h
      simp only [List.cons_append, List.append_assoc, List.nil_append, List.cons.injEq,
        true_and] at h
      obtain ⟨hxy, htail⟩ := escaped_cancel _ _ _ _ h
      subst hxy
      by_cases hx : xs = [] <;> by_cases hy : ys = []
      · rw [hx, hy]
      · subst hx
        simp only [List.map_nil, if_true, List.map_eq_nil_iff, hy, if_false] at htail
        have hsep : goStr ", " = [44, 32] := rfl
        rw [hsep] at htail
        simp at htail
      · subst hy
        simp only [List.map_nil, if_true, List.map_eq_nil_iff, hx, if_false] at htail
        have hsep : goStr ", " = [44, 32] := rfl
        rw [hsep] at htail
        simp at htail
      · simp only [List.map_eq_nil_iff, hx, hy, if_false] at htail
        rw [ih ys (List.append_cancel_left htail)]

theorem all_strings_eq_map (xs : List Arg) (h : ∀ a ∈ xs, ∃ s, a = Arg.string s) :
    ∃ ss : List GoString, xs = ss.map Arg.string := by
  induction xs with
  | nil => exact ⟨[], rfl⟩
  | cons a t ih =>
    obtain ⟨s, hs⟩ := h a (List.mem_cons_self _ _)
    obtain ⟨ss, hss⟩ := ih (fun b hb => h b (List.mem_cons_of_mem _ hb))
    exact ⟨s :: ss, by rw [hs, hss]; rfl⟩

/-- C11 fails on the route with the single header entry `k: v`: its predicate
clause is `Header("k", "v")`, with a space behind the comma, and the text
`Header("k","v")` without the space does not occur in it. -/
theorem header_term_has_space :
    headerRoute.predicateString = goStr "Header(\"k\", \"v\")"
      ∧ ¬ (goStr "Header(\"k\",\"v\")" <:+: headerRoute.predicateString) := by
  have h : headerRoute.predicateString = goStr "Header(\"k\", \"v\")" := by rfl
  refine ⟨h, ?_⟩
  rw [h]
  decide

/-- C11, amended: for every route whose Headers map has an entry `(k, v)`, the
predicate clause contains for that entry the term `Header("k", "v")`: the
quote-escaped key and the quote-escaped value, each in double quotes,
separated by a comma and one space.  The term is one of the terms of the
route, and the clause is the ` && `-join of these terms. -/
theorem header_term_in_clause (r : Route) (k v : GoString) (h : (k, v) ∈ r.Headers) :
    headerTerm k v ∈ predicateTerms r
      ∧ r.predicateString = (goStr " && ").intercalate (predicateTerms r)
      ∧ headerTerm k v <:+: r.predicateString := by
  have hmem := headerTerm_mem r k v h
  have hne : predicateTerms r ≠ [] := List.ne_nil_of_mem hmem
  have hps : r.predicateString = stringsJoin (predicateTerms r) (goStr " && ") := by
    rw [predicateString_eq, if_neg hne]
  refine ⟨hmem, ?_, ?_⟩
  · rw [hps, stringsJoin_eq_intercalate]
  · rw [hps]
    exact mem_infix_stringsJoin _ _ _ hmem

/-- C11, amended, at the route with the single header entry `k: v`. -/
theorem header_term_in_clause_witness :
    (goStr "k", goStr "v") ∈ headerRoute.Headers
      ∧ goStr "Header(\"k\", \"v\")" <:+: headerRoute.predicateString :=
  ⟨by decide, (header_term_in_clause headerRoute (goStr "k") (goStr "v") (by decide)).2.2⟩

theorem sameAs_trans (a b c : Route) (hab : a.sameAs b) (hbc : b.sameAs c) : a.sameAs c := by
  obtain ⟨h1, h2, h3, h4, h5, h6, h7, h8, h9, h10, h11, h12⟩ := hab
  obtain ⟨k1, k2, k3, k4, k5, k6, k7, k8, k9, k10, k11, k12⟩ := hbc
  exact ⟨h1.trans k1, h2.trans k2, h3.trans k3, h4.trans k4, h5.trans k5, h6.trans k6,
    h7.trans k7, h8.trans k8, h9.trans k9, h10.trans k10, h11.trans k11, h12.trans k12⟩

theorem sameAs_symm (a b : Route) (hab : a.sameAs b) : b.sameAs a := by
  obtain ⟨h1, h2, h3, h4, h5, h6, h7, h8, h9, h10, h11, h12⟩ := hab
  exact ⟨h1.symm, h2.symm, h3.symm, h4.symm, h5.symm, h6.symm, h7.symm, h8.symm, h9.symm,
    h10.symm, h11.symm, h12.symm⟩

theorem sameAs_with_ID (a b : Route) (id : GoString) (hab : a.sameAs b) :
    ({ a with ID := id } : Route).sameAs { b with ID := id } := by
  obtain ⟨_, h2, h3, h4, h5, h6, h7, h8, h9, h10, h11, h12⟩ := hab
  exact ⟨rfl, h2, h3, h4, h5, h6, h7, h8, h9, h10, h11, h12⟩

/-- C12 fails on a route with two header entries: `twoHeaderRoute` and
`twoHeaderRouteOtherOrder` differ only in their ID as Go values (the same
entries in the two maps), the printer visits the entries of the second in the
other order, and the two results of `String` differ. -/
theorem route_string_varies_with_order :
    ({ twoHeaderRouteOtherOrder with ID := twoHeaderRoute.ID } : Route).sameAs twoHeaderRoute
      ∧ twoHeaderRoute.ID ≠ twoHeaderRouteOtherOrder.ID
      ∧ twoHeaderRoute.String
        = goStr "Header(\"a\", \"1\") && Header(\"b\", \"2\") -> <shunt>"
      ∧ twoHeaderRouteOtherOrder.String
        = goStr "Header(\"b\", \"2\") && Header(\"a\", \"1\") -> <shunt>"
      ∧ twoHeaderRoute.String ≠ twoHeaderRouteOtherOrder.String := by
  have h1 : twoHeaderRoute.String
      = goStr "Header(\"a\", \"1\") && Header(\"b\", \"2\") -> <shunt>" := by rfl
  have h2 : twoHeaderRouteOtherOrder.String
      = goStr "Header(\"b\", \"2\") && Header(\"a\", \"1\") -> <shunt>" := by rfl
  refine ⟨⟨rfl, rfl, rfl, rfl, rfl, List.Perm.swap _ _ _, List.Perm.refl _, rfl, rfl, rfl, rfl,
    rfl⟩, by decide, h1, h2, ?_⟩
  rw [h1, h2]
  decide

/-- C12, amended: `Route.String` omits the route id.  `String` returns what its
call of `Print` in compact mode returns.  For two routes that differ only in
their ID field, `String` and `Print` in either mode return identical results
whenever the two calls visit the entries of the Headers and HeaderRegexps maps
in the same order; and whatever the orders, every result that one of the two
routes can print, the other can print too. -/
theorem route_string_ignores_id (r r' : Route) (pretty : Bool)
    (h : ({ r' with ID := r.ID } : Route).sameAs r) :
    r.String = r.Print false
      ∧ (({ r' with ID := r.ID } : Route) = r →
          r'.String = r.String ∧ r'.Print pretty = r.Print pretty)
      ∧ (∀ out, (∃ v : Route, v.sameAs r' ∧ v.Print pretty = out)
          ↔ (∃ w : Route, w.sameAs r ∧ w.Print pretty = out)) := by
  refine ⟨rfl, ?_, ?_⟩
  · intro e
    rw [← e]
    exact ⟨rfl, rfl⟩
  · intro out
    constructor
    · rintro ⟨v, hv, hout⟩
      refine ⟨({ v with ID := r.ID } : Route), ?_, hout⟩
      exact sameAs_trans _ _ _ (sameAs_with_ID v r' r.ID hv) h
    · rintro ⟨w, hw, hout⟩
      refine ⟨({ w with ID := r'.ID } : Route), ?_, hout⟩
      have h1 := sameAs_with_ID w r r'.ID hw
      have h2 := sameAs_with_ID _ _ r'.ID (sameAs_symm _ _ h)
      exact sameAs_trans _ _ _ h1 h2

/-- C12, amended, at the scenario route and the same route with the ID `r1`,
its maps visited in the same order: both print the text of the scenario. -/
theorem route_string_ignores_id_witness :
    ({ scenarioRoute with ID := goStr "r1" } : Route).String = scenarioRoute.String
      ∧ scenarioRoute.String
        = goStr "Path(\"/foo\") && Method(\"GET\") -> setPath(\"/bar\") -> \"https://example.org\"" :=
  ⟨((route_string_ignores_id scenarioRoute { scenarioRoute with ID := goStr "r1" } false
      (sameAs_refl _)).2.1 rfl).1, by rfl⟩

/-- C19: on argument lists whose elements are all strings, `argsString` is
injective: two such lists have the same text exactly when they are equal. -/
theorem args_string_injective (xs ys : List Arg) (hx : ∀ a ∈ xs, ∃ s, a = Arg.string s)
    (hy : ∀ a ∈ ys, ∃ s, a = Arg.string s) :
    argsString xs = argsString ys ↔ xs = ys := by
  constructor
  · intro h
    obtain ⟨sx, rfl⟩ := all_strings_eq_map xs hx
    obtain ⟨sy, rfl⟩ := all_strings_eq_map ys hy
    rw [argsString_strings, argsString_strings] at h
    rw [stringsJoin_quoted_injective sx sy h]
  · intro h
    rw [h]

/-- C19 at concrete lists: the one argument `a", "b` and the two arguments `a`
and `b` are different lists and have different texts. -/
theorem args_string_injective_witness :
    argsString [Arg.string (goStr "a\", \"b")]
      ≠ argsString [Arg.string (goStr "a"), Arg.string (goStr "b")] :=
  fun h => absurd
    ((args_string_injective [Arg.string (goStr "a\", \"b")]
      [Arg.string (goStr "a"), Arg.string (goStr "b")]
      (by intro a ha; simp only [List.mem_singleton] at ha; exact ⟨_, ha⟩)
      (by
        intro a ha
        simp only [List.mem_cons, List.mem_singleton, List.not_mem_nil, or_false] at ha
        rcases ha with ha | ha
        · exact ⟨_, ha⟩
        · exact ⟨_, ha⟩)).mp h)
    (by decide)

end Eskip

/-! # The flow ID filter -/

namespace Flowid

open Eskip Filters

theorem byte_eq_ofNat (b : Byte) : ∃ n : Fin 256, b = UInt8.ofNat n.val := by
  rcases b with ⟨⟨⟨n, hn⟩⟩⟩
  refine ⟨⟨n, hn⟩, ?_⟩
  simp only [UInt8.ofNat, BitVec.ofNat, Fin.ofNat']
  congr 3
  exact (Nat.mod_eq_of_lt hn).symm

theorem lower_letter_table : ∀ n : Fin 256, ∀ c ∈ ([114, 101, 117, 115] : List Byte),
    ((if 65 ≤ UInt8.ofNat n.val ∧ UInt8.ofNat n.val ≤ 90 then UInt8.ofNat n.val + 32
        else UInt8.ofNat n.val) = c
      ↔ (UInt8.ofNat n.val = c ∨ UInt8.ofNat n.val + 32 = c)) := by
  decide

theorem lower_letter_iff (b c : Byte) (hc : c ∈ ([114, 101, 117, 115] : List Byte)) :
    (if 65 ≤ b ∧ b ≤ 90 then b + 32 else b) = c ↔ (b = c ∨ b + 32 = c) := by
  obtain ⟨n, rfl⟩ := byte_eq_ofNat b
  exact lower_letter_table n c hc

theorem toLower_eq_reuse_iff (s : GoString) :
    stringsToLower s = ReuseParameterValue ↔ isReuseIgnoringCase s := by
  have hreuse : goStr "reuse" = [114, 101, 117, 115, 101] := rfl
  unfold stringsToLower ReuseParameterValue isReuseIgnoringCase
  rw [hreuse]
  rcases s with _ | ⟨b1, _ | ⟨b2, _ | ⟨b3, _ | ⟨b4, _ | ⟨b5, _ | ⟨b6, s⟩⟩⟩⟩⟩⟩ <;>
    simp only [List.map_nil, List.map_cons, List.forall₂_cons, List.forall₂_nil_left_iff,
      List.forall₂_nil_right_iff, List.cons.injEq, reduceCtorEq, and_false, false_and,
      and_true, List.cons_ne_nil, List.nil_eq]
  rw [lower_letter_iff b1 114 (by decide), lower_letter_iff b2 101 (by decide),
    lower_letter_iff b3 117 (by decide), lower_letter_iff b4 115 (by decide),
    lower_letter_iff b5 101 (by decide)]

theorem Request_keep {σ : Type} (g : Generator σ) (fc : Context σ)
    (h : g.IsValid fc.generatorState (fc.Header.Get HeaderName) = true) :
    ({ reuseExisting := true, generator := g } : flowID σ).Request fc = fc := by
  simp [flowID.Request, h]

theorem Request_generate {σ : Type} (f : flowID σ) (fc : Context σ)
    (h : ¬ (f.reuseExisting = true
      ∧ f.generator.IsValid fc.generatorState (fc.Header.Get HeaderName) = true)) :
    f.Request fc =
      match (f.generator.Generate fc.generatorState).1.2 with
      | none =>
        { fc with
          Header := fc.Header.Set HeaderName (f.generator.Generate fc.generatorState).1.1
          generatorState := (f.generator.Generate fc.generatorState).2 }
      | some err =>
        { fc with
          generatorState := (f.generator.Generate fc.generatorState).2
          log := fc.log ++ [err] } := by
  unfold flowID.Request
  by_cases hr : f.reuseExisting = true
  · have hv : ¬ f.generator.IsValid fc.generatorState (fc.Header.Get HeaderName) = true :=
      fun hv => h ⟨hr, hv⟩
    simp [hr, hv]
  · simp [hr]

/-- C13: for a filter created with the reuse flag, every generator and every
request whose `X-Flow-Id` value is accepted by `IsValid`, `Request` changes
nothing: the header of the request, the state of the generator and the log are
as before, and this with any `Generate` function, which is therefore not
used. -/
theorem flowid_request_keeps_valid_header {σ : Type} (g : Generator σ) (fc : Context σ)
    (h : g.IsValid fc.generatorState (fc.Header.Get HeaderName) = true) :
    (({ reuseExisting := true, generator := g } : flowID σ).Request fc).Header = fc.Header
      ∧ ({ reuseExisting := true, generator := g } : flowID σ).Request fc = fc
      ∧ ∀ generate : σ → (GoString × Option GoString) × σ,
          ({ reuseExisting := true,
             generator := { Generate := generate, IsValid := g.IsValid } } : flowID σ).Request fc
            = fc := by
  refine ⟨?_, Request_keep g fc h, ?_⟩
  · rw [Request_keep g fc h]
  · intro generate
    exact Request_keep { Generate := generate, IsValid := g.IsValid } fc h

/-- C13 at the request of the test `TestFlowIdReuseExisting`: the header
`X-Flow-Id: FLOW-ID-FOR-TESTING` is kept and no ID is generated. -/
theorem flowid_request_keeps_valid_header_witness :
    (({ reuseExisting := true, generator := countingGenerator } : flowID Nat).Request
        testContext).Header.Get HeaderName = goStr "FLOW-ID-FOR-TESTING"
      ∧ (({ reuseExisting := true, generator := countingGenerator } : flowID Nat).Request
        testContext).generatorState = 0 :=
  have h := flowid_request_keeps_valid_header countingGenerator testContext (by decide)
  ⟨by rw [h.1]; decide, by rw [h.2.1]; rfl⟩

/-- C14: when the reuse flag is not set, or the current `X-Flow-Id` value is
rejected by `IsValid`, `Request` asks the generator: if `Generate` returns the
ID `g` without error, then afterwards the header `X-Flow-Id` has exactly the
single value `g` and every other header is as before; if `Generate` returns an
error, the header of the request is as before. -/
theorem flowid_request_sets_generated {σ : Type} (f : flowID σ) (fc : Context σ)
    (h : ¬ (f.reuseExisting = true
      ∧ f.generator.IsValid fc.generatorState (fc.Header.Get HeaderName) = true)) :
    (∀ g st, f.generator.Generate fc.generatorState = ((g, none), st) →
        (f.Request fc).Header.lookup HeaderName = some [g]
          ∧ (f.Request fc).Header.Get HeaderName = g
          ∧ (∀ k, k ≠ HeaderName → (f.Request fc).Header.lookup k = fc.Header.lookup k)
          ∧ (f.Request fc).generatorState = st)
      ∧ (∀ g err st, f.generator.Generate fc.generatorState = ((g, some err), st) →
          (f.Request fc).Header = fc.Header ∧ (f.Request fc).log = fc.log ++ [err]) := by
  rw [Request_generate f fc h]
  constructor
  · intro g st hg
    rw [hg]
    refine ⟨?_, ?_, ?_, rfl⟩
    · simp [Http.Header.Set]
    · simp [Http.Header.Set, Http.Header.Get]
    · intro k hk
      simp [Http.Header.Set, hk]
  · intro g err st hg
    rw [hg]
    exact ⟨rfl, rfl⟩

/-- C14 at the request of the test `TestFlowIdIgnoreReuseExisting`: without the
reuse flag the header `X-Flow-Id` gets the generated ID `id` and the header
`Accept` is kept; and when the generator fails the header is unchanged. -/
theorem flowid_request_sets_generated_witness :
    (({ reuseExisting := false, generator := countingGenerator } : flowID Nat).Request
        testContext).Header.lookup HeaderName = some [goStr "id"]
      ∧ (({ reuseExisting := false, generator := countingGenerator } : flowID Nat).Request
        testContext).Header.lookup (goStr "Accept") = some [goStr "*/*"]
      ∧ (({ reuseExisting := false, generator := countingGenerator } : flowID Nat).Request
        { testContext with generatorState := 2 }).Header = testHeader :=
  have h := flowid_request_sets_generated
    ({ reuseExisting := false, generator := countingGenerator } : flowID Nat) testContext
    (by simp)
  have h2 := flowid_request_sets_generated
    ({ reuseExisting := false, generator := countingGenerator } : flowID Nat)
    { testContext with generatorState := 2 } (by simp)
  ⟨(h.1 (goStr "id") 1 rfl).1,
    ((h.1 (goStr "id") 1 rfl).2.2.1 (goStr "Accept") (by decide)).trans (by decide),
    (h2.2 [] (goStr "no more ids") 3 rfl).1⟩

/-- C15: `CreateFilter` fails with `ErrInvalidFilterParameters` if and only if
the argument list is non-empty and its first element is not a string; in every
other case it returns a filter and no error.  So a first argument of another
type, as `true` or `1`, fails, and the empty list and the list of the empty
string and `true` are accepted. -/
theorem flowid_create_filter_error_iff {σ : Type} (spec : flowIDSpec σ) (fc : List Arg) :
    ((spec.CreateFilter fc).1 = Except.error FilterError.ErrInvalidFilterParameters
        ↔ ∃ a rest, fc = a :: rest ∧ ∀ s, a ≠ Arg.string s)
      ∧ ((¬ ∃ a rest, fc = a :: rest ∧ ∀ s, a ≠ Arg.string s) →
          ∃ f, (spec.CreateFilter fc).1 = Except.ok f)
      ∧ (spec.CreateFilter [Arg.other]).1
          = Except.error FilterError.ErrInvalidFilterParameters
      ∧ (∃ f, (spec.CreateFilter []).1 = Except.ok f)
      ∧ (∃ f, (spec.CreateFilter [Arg.string [], Arg.other]).1 = Except.ok f) := by
  refine ⟨?_, ?_, rfl, ⟨_, rfl⟩, ⟨_, rfl⟩⟩
  · rcases fc with _ | ⟨a, rest⟩
    · simp [flowIDSpec.CreateFilter]
    · cases a <;> simp [flowIDSpec.CreateFilter]
  · intro h
    rcases fc with _ | ⟨a, rest⟩
    · exact ⟨_, rfl⟩
    · cases a with
      | string s => exact ⟨_, rfl⟩
      | float64 v => exact absurd ⟨_, _, rfl, fun s => by simp⟩ h
      | other => exact absurd ⟨_, _, rfl, fun s => by simp⟩ h

/-- C16: the filter created from an accepted argument list keeps an existing
`X-Flow-Id` header exactly when the list has a first argument and this is the
text `reuse` up to the case of its letters, whatever arguments follow; and the
filter uses the generator of the spec. -/
theorem flowid_reuse_flag {σ : Type} (spec : flowIDSpec σ) (fc : List Arg) (f : flowID σ)
    (h : (spec.CreateFilter fc).1 = Except.ok f) :
    (f.reuseExisting = true ↔ ∃ s rest, fc = Arg.string s :: rest ∧ isReuseIgnoringCase s)
      ∧ f.generator = spec.generator := by
  rcases fc with _ | ⟨a, rest⟩
  · simp only [flowIDSpec.CreateFilter, Except.ok.injEq] at h
    subst h
    simp
  · cases a with
    | string s =>
      simp only [flowIDSpec.CreateFilter, Except.ok.injEq] at h
      subst h
      simp [toLower_eq_reuse_iff]
    | float64 v => simp [flowIDSpec.CreateFilter] at h
    | other => simp [flowIDSpec.CreateFilter] at h

/-- C16 at the argument lists of the tests: `REUSE` followed by another
argument gives a filter with the flag set, and `REUSE` is `reuse` up to case;
`dummy` gives a filter with the flag off, and `dummy` is not `reuse` up to
case. -/
theorem flowid_reuse_flag_witness :
    ((NewWithGenerator countingGenerator).CreateFilter
          [Arg.string (goStr "REUSE"), Arg.other]).1
        = Except.ok { reuseExisting := true, generator := countingGenerator }
      ∧ isReuseIgnoringCase (goStr "REUSE")
      ∧ ((NewWithGenerator countingGenerator).CreateFilter [Arg.string (goStr "dummy")]).1
        = Except.ok { reuseExisting := false, generator := countingGenerator }
      ∧ ¬ isReuseIgnoringCase (goStr "dummy") := by
  have h1 := flowid_reuse_flag (NewWithGenerator countingGenerator)
    [Arg.string (goStr "REUSE"), Arg.other]
    { reuseExisting := true, generator := countingGenerator } rfl
  have h2 := flowid_reuse_flag (NewWithGenerator countingGenerator)
    [Arg.string (goStr "dummy")]
    { reuseExisting := false, generator := countingGenerator } rfl
  refine ⟨rfl, ?_, rfl, ?_⟩
  · obtain ⟨s, rest, hs, hr⟩ := h1.1.mp rfl
    simp only [List.cons.injEq, Arg.string.injEq] at hs
    rw [hs.1]
    exact hr
  · intro hr
    exact absurd (h2.1.mpr ⟨_, _, rfl, hr⟩) (by decide)

end Flowid

/-! # The redirect filter -/

namespace Builtin

open Eskip Filters

theorem truncate_301 : truncate 301 = 301 := by
  unfold truncate
  norm_num

theorem truncate_301_half : truncate (603 / 2) = 301 := by
  unfold truncate
  norm_num [Int.floor_eq_iff]

theorem truncate_huge : truncate 9223372036854775808 = 9223372036854775808 := by
  unfold truncate
  norm_num

theorem example_conversion : IsGoIntConversion exampleValue exampleToInt := by
  constructor
  · intro v
    unfold exampleToInt
    split_ifs <;> norm_num
  · intro v q hv h1 h2
    unfold exampleValue at hv
    unfold exampleToInt
    split_ifs at hv ⊢ with e1 e2 e3
    · cases hv; exact truncate_301.symm
    · cases hv; exact truncate_301_half.symm
    · cases hv
      rw [truncate_huge] at h2
      norm_num at h2

theorem CreateFilter_ok (spec : redirect) (urlParse : GoString → Option Url.URL)
    (toInt : Float64 → Int) (v : Float64) (s : GoString) (u : Url.URL)
    (hu : urlParse s = some u) :
    spec.CreateFilter urlParse toInt [Arg.float64 v, Arg.string s]
      = Except.ok { deprecated := spec.deprecated, code := toInt v, location := some u } := by
  simp [redirect.CreateFilter, hu]

theorem CreateFilter_error_iff (spec : redirect) (urlParse : GoString → Option Url.URL)
    (toInt : Float64 → Int) (config : List Arg) :
    spec.CreateFilter urlParse toInt config
          = Except.error FilterError.ErrInvalidFilterParameters
        ↔ (config.length ≠ 2 ∨ (∀ v, config[0]? ≠ some (Arg.float64 v))
            ∨ (∀ s, config[1]? ≠ some (Arg.string s))
            ∨ (∃ s, config[1]? = some (Arg.string s) ∧ urlParse s = none)) := by
  rcases config with _ | ⟨c0, _ | ⟨c1, _ | ⟨c2, rest⟩⟩⟩
  · simp [redirect.CreateFilter]
  · simp [redirect.CreateFilter]
  · cases c0 <;> cases c1 <;> simp [redirect.CreateFilter]
    rename_i v s
    cases hu : urlParse s <;> simp
  · simp [redirect.CreateFilter]

theorem CreateFilter_accepted (spec : redirect) (urlParse : GoString → Option Url.URL)
    (toInt : Float64 → Int) (config : List Arg)
    (hne : spec.CreateFilter urlParse toInt config
      ≠ Except.error FilterError.ErrInvalidFilterParameters) :
    ∃ v s u, config = [Arg.float64 v, Arg.string s] ∧ urlParse s = some u := by
  rcases config with _ | ⟨c0, _ | ⟨c1, _ | ⟨c2, rest⟩⟩⟩
  · simp [redirect.CreateFilter] at hne
  · simp [redirect.CreateFilter] at hne
  · cases c0 <;> cases c1 <;> simp [redirect.CreateFilter] at hne
    rename_i v s
    cases hu : urlParse s with
    | none => simp [hu] at hne
    | some u => exact ⟨v, s, u, rfl, hu⟩
  · simp [redirect.CreateFilter] at hne

/-- C17 fails on the number two to the power 63 with the location `/new`: the
arguments are accepted, the truncated number is two to the power 63 itself,
which is no 64-bit `int`, and the status code of the filter is another number
(with the amd64 conversion, the smallest `int`). -/
theorem redirect_code_not_truncation :
    IsGoIntConversion exampleValue exampleToInt
      ∧ exampleValue floatHuge = FloatValue.finite 9223372036854775808
      ∧ truncate 9223372036854775808 = 9223372036854775808
      ∧ NewRedirectTo.CreateFilter exampleParse exampleToInt
          [Arg.float64 floatHuge, Arg.string (goStr "/new")]
        = Except.ok { deprecated := false, code := -9223372036854775808,
                      location := some { emptyURL with Path := goStr "/new" } }
      ∧ ¬ ∃ f, NewRedirectTo.CreateFilter exampleParse exampleToInt
            [Arg.float64 floatHuge, Arg.string (goStr "/new")] = Except.ok f
          ∧ f.code = truncate 9223372036854775808 := by
  have hc : NewRedirectTo.CreateFilter exampleParse exampleToInt
      [Arg.float64 floatHuge, Arg.string (goStr "/new")]
        = Except.ok { deprecated := false, code := -9223372036854775808,
                      location := some { emptyURL with Path := goStr "/new" } } :=
    CreateFilter_ok NewRedirectTo exampleParse exampleToInt floatHuge (goStr "/new") _ (by decide)
  refine ⟨example_conversion, by decide, truncate_huge, hc, ?_⟩
  rintro ⟨f, hf, hcode⟩
  rw [hc] at hf
  cases hf
  rw [truncate_huge] at hcode
  norm_num at hcode

/-- C17, amended: `CreateFilter` of the redirect filter fails with
`ErrInvalidFilterParameters` if and only if the argument list does not have
exactly two elements, or the first is not a `float64`, or the second is not a
string, or the string is rejected by URL parsing; otherwise the arguments are a
number `v` and a string `s` that parses to a URL `u`, and the filter carries
the deprecated flag of the spec, the status code `int(v)` and the location
`u`.  The status code is the number truncated to an integer whenever the
truncated number is a 64-bit `int`; for every other number it is an `int`
different from the truncated number. -/
theorem redirect_create_filter_cases (spec : redirect) (urlParse : GoString → Option Url.URL)
    (value : Float64 → FloatValue) (toInt : Float64 → Int) (config : List Arg)
    (hconv : IsGoIntConversion value toInt) :
    (spec.CreateFilter urlParse toInt config
          = Except.error FilterError.ErrInvalidFilterParameters
        ↔ (config.length ≠ 2 ∨ (∀ v, config[0]? ≠ some (Arg.float64 v))
            ∨ (∀ s, config[1]? ≠ some (Arg.string s))
            ∨ (∃ s, config[1]? = some (Arg.string s) ∧ urlParse s = none)))
      ∧ (∀ v s u, config = [Arg.float64 v, Arg.string s] → urlParse s = some u →
          spec.CreateFilter urlParse toInt config
            = Except.ok { deprecated := spec.deprecated, code := toInt v, location := some u })
      ∧ (spec.CreateFilter urlParse toInt config
            ≠ Except.error FilterError.ErrInvalidFilterParameters →
          ∃ v s u, config = [Arg.float64 v, Arg.string s] ∧ urlParse s = some u
            ∧ spec.CreateFilter urlParse toInt config
              = Except.ok { deprecated := spec.deprecated, code := toInt v,
                            location := some u })
      ∧ (∀ v s u q, config = [Arg.float64 v, Arg.string s] → urlParse s = some u →
          value v = FloatValue.finite q → -2 ^ 63 ≤ truncate q → truncate q < 2 ^ 63 →
          spec.CreateFilter urlParse toInt config
            = Except.ok { deprecated := spec.deprecated, code := truncate q,
                          location := some u })
      ∧ (∀ v s u q, config = [Arg.float64 v, Arg.string s] → urlParse s = some u →
          value v = FloatValue.finite q → ¬ (-2 ^ 63 ≤ truncate q ∧ truncate q < 2 ^ 63) →
          ∃ f, spec.CreateFilter urlParse toInt config = Except.ok f
            ∧ -2 ^ 63 ≤ f.code ∧ f.code < 2 ^ 63 ∧ f.code ≠ truncate q) := by
  refine ⟨CreateFilter_error_iff spec urlParse toInt config, ?_, ?_, ?_, ?_⟩
  · intro v s u hc hu
    subst hc
    exact CreateFilter_ok spec urlParse toInt v s u hu
  · intro hne
    obtain ⟨v, s, u, hc, hu⟩ := CreateFilter_accepted spec urlParse toInt config hne
    subst hc
    exact ⟨v, s, u, rfl, hu, CreateFilter_ok spec urlParse toInt v s u hu⟩
  · intro v s u q hc hu hv h1 h2
    subst hc
    rw [CreateFilter_ok spec urlParse toInt v s u hu, hconv.2 v q hv h1 h2]
  · intro v s u q hc hu hv hout
    subst hc
    refine ⟨_, CreateFilter_ok spec urlParse toInt v s u hu, (hconv.1 v).1, (hconv.1 v).2, ?_⟩
    intro he
    apply hout
    show -2 ^ 63 ≤ truncate q ∧ truncate q < 2 ^ 63
    rw [← he]
    exact hconv.1 v

/-- C17, amended, at concrete argument lists: the number `301.5` and the text
`/new` give a `redirectTo` filter with the code 301 and the parsed location;
the text `:foo`, which is no URL, a single argument, and a string in the place
of the number are rejected. -/
theorem redirect_create_filter_cases_witness :
    IsGoIntConversion exampleValue exampleToInt
      ∧ NewRedirectTo.CreateFilter exampleParse exampleToInt
          [Arg.float64 float301Half, Arg.string (goStr "/new")]
        = Except.ok { deprecated := false, code := 301,
                      location := some { emptyURL with Path := goStr "/new" } }
      ∧ NewRedirectTo.CreateFilter exampleParse exampleToInt
          [Arg.float64 float301, Arg.string (goStr ":foo")]
        = Except.error FilterError.ErrInvalidFilterParameters
      ∧ NewRedirectTo.CreateFilter exampleParse exampleToInt [Arg.float64 float301]
        = Except.error FilterError.ErrInvalidFilterParameters
      ∧ NewRedirectTo.CreateFilter exampleParse exampleToInt
          [Arg.string (goStr "301"), Arg.string (goStr "/new")]
        = Except.error FilterError.ErrInvalidFilterParameters :=
  ⟨example_conversion,
    ((redirect_create_filter_cases NewRedirectTo exampleParse exampleValue exampleToInt
      [Arg.float64 float301Half, Arg.string (goStr "/new")] example_conversion).2.2.2.1
      float301Half (goStr "/new") { emptyURL with Path := goStr "/new" } (603 / 2) rfl
      (by decide) (by unfold exampleValue; rw [if_neg (by decide), if_pos rfl])
      (by rw [truncate_301_half]; norm_num)
      (by rw [truncate_301_half]; norm_num)).trans (by rw [truncate_301_half]; rfl),
    (redirect_create_filter_cases NewRedirectTo exampleParse exampleValue exampleToInt
      [Arg.float64 float301, Arg.string (goStr ":foo")] example_conversion).1.mpr
      (Or.inr (Or.inr (Or.inr ⟨goStr ":foo", rfl, by decide⟩))),
    (redirect_create_filter_cases NewRedirectTo exampleParse exampleValue exampleToInt
      [Arg.float64 float301] example_conversion).1.mpr (Or.inl (by decide)),
    (redirect_create_filter_cases NewRedirectTo exampleParse exampleValue exampleToInt
      [Arg.string (goStr "301"), Arg.string (goStr "/new")] example_conversion).1.mpr
      (Or.inr (Or.inl (fun v => by simp)))⟩

/-- C18: exactly one hook of a redirect filter instance acts.  For a
`redirectTo` instance (not deprecated) `Request` makes the single call `Serve`
with a response of the configured status code and the header `Location`, and
`Response` makes no call; for a deprecated `redirect` instance `Request` makes
no call, and `Response` sets the header `Location` of the response writer,
writes the configured status code and marks the request served. -/
theorem redirect_hooks (code : Int) (location : Url.URL) (urlString : Url.URL → GoString)
    (r : Http.Request) :
    ({ deprecated := false, code := code, location := some location } : redirect).Request
          urlString r
        = some [ContextCall.Serve
            { StatusCode := code,
              Header := Http.Header.ofEntry (goStr "Location")
                [getLocation urlString r location] }]
      ∧ ({ deprecated := false, code := code, location := some location } : redirect).Response
          urlString r = some []
      ∧ ({ deprecated := true, code := code, location := some location } : redirect).Request
          urlString r = some []
      ∧ ({ deprecated := true, code := code, location := some location } : redirect).Response
          urlString r
        = some [ContextCall.ResponseHeaderSet (goStr "Location")
                  (getLocation urlString r location),
                ContextCall.WriteHeader code, ContextCall.MarkServed] :=
  ⟨rfl, rfl, rfl, rfl⟩

/-- C20: the URL that `getLocation` serialises has the scheme of the location
if non-empty, else the scheme of the request URL if non-empty, else `https`,
so never an empty scheme; the user info of the request URL; the host of the
location if non-empty, else the first non-empty of the `Host` header, the
`Host` field of the request and the host of the request URL; the path and the
raw query of the location if non-empty, else those of the request URL; and the
other components of the location. -/
theorem get_location_components (urlString : Url.URL → GoString) (r : Http.Request)
    (l : Url.URL) :
    getLocation urlString r l = urlString (locationURL r l)
      ∧ (locationURL r l).Scheme
        = (if l.Scheme ≠ [] then l.Scheme
           else if r.URL.Scheme ≠ [] then r.URL.Scheme else goStr "https")
      ∧ (locationURL r l).Scheme ≠ []
      ∧ (locationURL r l).User = r.URL.User
      ∧ (locationURL r l).Host
        = (if l.Host ≠ [] then l.Host
           else if r.Header.Get (goStr "Host") ≠ [] then r.Header.Get (goStr "Host")
           else if r.Host ≠ [] then r.Host else r.URL.Host)
      ∧ (locationURL r l).Path = (if l.Path ≠ [] then l.Path else r.URL.Path)
      ∧ (locationURL r l).RawQuery = (if l.RawQuery ≠ [] then l.RawQuery else r.URL.RawQuery)
      ∧ (locationURL r l).Opaque = l.Opaque
      ∧ (locationURL r l).RawPath = l.RawPath
      ∧ (locationURL r l).Fragment = l.Fragment := by
  have hhttps : goStr "https" ≠ [] := by decide
  refine ⟨rfl, ?_, ?_, ?_, ?_, ?_, ?_, ?_, ?_, ?_⟩ <;>
    unfold locationURL getRequestHost <;>
    by_cases h1 : l.Scheme = [] <;> by_cases h2 : r.URL.Scheme = [] <;>
    by_cases h3 : l.Host = [] <;> by_cases h4 : l.Path = [] <;>
    by_cases h5 : l.RawQuery = [] <;>
    simp [h1, h2, h3, h4, h5, hhttps]
  all_goals
    by_cases h6 : r.Header.Get (goStr "Host") = [] <;> by_cases h7 : r.Host = [] <;>
      simp [h6, h7]

end Builtin

/-! # The round trip of the printer and the parser -/

namespace Eskip

theorem skipSpace_cons_of_not_space (b : Byte) (s : GoString) (h : isSpace b = false) :
    skipSpace (b :: s) = b :: s := by
  simp [skipSpace, List.dropWhile, h]

theorem skipSpace_space (s : GoString) : skipSpace (32 :: s) = skipSpace s := by
  have h : isSpace 32 = true := by decide
  simp [skipSpace, List.dropWhile, h]

theorem takeWhile_append_stop {p : Byte → Bool} (name : GoString) (b : Byte) (rest : GoString)
    (hn : ∀ x ∈ name, p x = true) (hb : p b = false) :
    (name ++ b :: rest).takeWhile p = name ∧ (name ++ b :: rest).dropWhile p = b :: rest := by
  induction name with
  | nil => simp [List.takeWhile, List.dropWhile, hb]
  | cons a t ih =>
    have ha : p a = true := hn a (List.mem_cons_self _ _)
    have := ih (fun x hx => hn x (List.mem_cons_of_mem _ hx))
    simp [List.takeWhile, List.dropWhile, ha, this]

theorem takeWhile_all {p : Byte → Bool} (name : GoString) (hn : ∀ x ∈ name, p x = true) :
    name.takeWhile p = name ∧ name.dropWhile p = [] := by
  induction name with
  | nil => simp
  | cons a t ih =>
    have ha : p a = true := hn a (List.mem_cons_self _ _)
    have := ih (fun x hx => hn x (List.mem_cons_of_mem _ hx))
    simp [List.takeWhile, List.dropWhile, ha, this]

theorem readDelimited_delim (d : Byte) (rest : GoString) :
    readDelimited d (d :: rest) = some ([], rest) := by
  cases rest <;> simp [readDelimited]

theorem readDelimited_escaped (d b : Byte) (rest : GoString) (hd : d ≠ backslash) :
    readDelimited d (backslash :: b :: rest)
      = (readDelimited d rest).map (fun p => (backslash :: b :: p.1, p.2)) := by
  simp [readDelimited, Ne.symm hd]

theorem readDelimited_plain (d b : Byte) (rest : GoString) (hb : b ≠ d) (hbs : b ≠ backslash)
    (hne : rest ≠ []) :
    readDelimited d (b :: rest) = (readDelimited d rest).map (fun p => (b :: p.1, p.2)) := by
  cases rest with
  | nil => exact absurd rfl hne
  | cons c rest => simp [readDelimited, hb, hbs]

theorem readDelimited_flatMap (d : Byte) (hd : d ≠ backslash) (s rest : GoString) :
    readDelimited d (s.flatMap (escapeByte [d]) ++ d :: rest)
      = some (s.flatMap (escapeByte [d]), rest) := by
  induction s with
  | nil => simp [readDelimited_delim]
  | cons b t ih =>
    rw [List.flatMap_cons]
    unfold escapeByte
    by_cases h : b = backslash ∨ b ∈ [d]
    · rw [if_pos h]
      simp only [List.cons_append, List.nil_append]
      rw [readDelimited_escaped d b _ hd]
      have ih' := ih
      unfold escapeByte at ih'
      rw [ih']
      rfl
    · rw [if_neg h]
      simp only [List.cons_append, List.nil_append]
      have hb : b ≠ d := fun e => h (Or.inr (by simp [e]))
      have hbs : b ≠ backslash := fun e => h (Or.inl e)
      rw [readDelimited_plain d b _ hb hbs (by simp)]
      have ih' := ih
      unfold escapeByte at ih'
      rw [ih']
      rfl

theorem readDelimited_escape (d : Byte) (hd : d ≠ backslash) (s rest : GoString) :
    readDelimited d (escape s [d] ++ d :: rest) = some (escape s [d], rest) := by
  rw [escape_eq_flatMap s [d] (by simp) (by simpa using Ne.symm hd)]
  exact readDelimited_flatMap d hd s rest

theorem takeWhile_number (t rest : GoString) (ht : ∀ b ∈ t, isNumberByte b = true)
    (hr : endsNumber rest) :
    (t ++ rest).takeWhile isNumberByte = t ∧ (t ++ rest).dropWhile isNumberByte = rest := by
  cases rest with
  | nil =>
    rw [List.append_nil]
    exact takeWhile_all t ht
  | cons b rest =>
    have hb : isNumberByte b = false := hr b (by simp)
    exact takeWhile_append_stop t b rest ht hb

theorem readLiteral_text (readFloat : GoString → Option Float64) (l : Literal)
    (rest : GoString) (hl : validLiteral readFloat l) (hr : endsNumber rest) :
    readLiteral readFloat (l.text ++ rest) = some (l, rest) := by
  have hq : goStr "\"" = [34] := rfl
  have hs : goStr "/" = [47] := rfl
  cases l with
  | str s =>
    have e : (Literal.str s).text ++ rest = 34 :: (escape s [34] ++ 34 :: rest) := by
      simp [Literal.text, quoted, hq]
    rw [e]
    simp only [readLiteral, if_true]
    rw [readDelimited_escape 34 (by decide) s rest]
    simp only [Option.map_some', hq]
    rw [unescape_escape_aux s [34] (by simp) (by decide)]
  | regex s =>
    have e : (Literal.regex s).text ++ rest = 47 :: (escape s [47] ++ 47 :: rest) := by
      simp [Literal.text, hs]
    rw [e]
    have h47 : (47 : Byte) ≠ 34 := by decide
    simp only [readLiteral, h47, if_false, if_true]
    rw [readDelimited_escape 47 (by decide) s rest]
    simp only [Option.map_some', hs]
    rw [unescape_escape_aux s [47] (by simp) (by decide)]
  | num v =>
    obtain ⟨hne, hall, hread⟩ := hl
    have e : (Literal.num v).text = floatText v := rfl
    rw [e]
    obtain ⟨htake, hdrop⟩ := takeWhile_number (floatText v) rest hall hr
    cases ht : floatText v with
    | nil => exact absurd ht hne
    | cons b t =>
      have hb : isNumberByte b = true := hall b (by rw [ht]; simp)
      have hb34 : b ≠ 34 := fun e => by rw [e] at hb; exact absurd hb (by decide)
      have hb47 : b ≠ 47 := fun e => by rw [e] at hb; exact absurd hb (by decide)
      rw [ht] at htake hdrop hread
      simp only [List.cons_append] at htake hdrop ⊢
      simp only [readLiteral, hb34, hb47, if_false, htake, hdrop, hread]
      simp

theorem number_byte_table : ∀ n : Fin 256, isNumberByte (UInt8.ofNat n.val) = true →
    isSpace (UInt8.ofNat n.val) = false ∧ UInt8.ofNat n.val ≠ 41 ∧ UInt8.ofNat n.val ≠ 34
      ∧ UInt8.ofNat n.val ≠ 47 := by
  decide

theorem number_byte_facts (b : Byte) (h : isNumberByte b = true) :
    isSpace b = false ∧ b ≠ 41 ∧ b ≠ 34 ∧ b ≠ 47 := by
  obtain ⟨n, rfl⟩ := Flowid.byte_eq_ofNat b
  exact number_byte_table n h

theorem alnum_byte_table : ∀ n : Fin 256, isAlnum (UInt8.ofNat n.val) = true →
    isSpace (UInt8.ofNat n.val) = false ∧ UInt8.ofNat n.val ≠ 58 ∧ UInt8.ofNat n.val ≠ 42
      ∧ UInt8.ofNat n.val ≠ 40 := by
  decide

theorem alnum_byte_facts (b : Byte) (h : isAlnum b = true) :
    isSpace b = false ∧ b ≠ 58 ∧ b ≠ 42 ∧ b ≠ 40 := by
  obtain ⟨n, rfl⟩ := Flowid.byte_eq_ofNat b
  exact alnum_byte_table n h

theorem literal_text_head (readFloat : GoString → Option Float64) (l : Literal)
    (hl : validLiteral readFloat l) :
    ∃ b t, l.text = b :: t ∧ isSpace b = false ∧ b ≠ 41 := by
  have hq : goStr "\"" = [34] := rfl
  have hs : goStr "/" = [47] := rfl
  cases l with
  | str s => exact ⟨34, escape s [34] ++ [34], by simp [Literal.text, quoted, hq], by decide,
      by decide⟩
  | regex s => exact ⟨47, escape s [47] ++ [47], by simp [Literal.text, hs], by decide,
      by decide⟩
  | num v =>
    obtain ⟨hne, hall, _⟩ := hl
    have e : (Literal.num v).text = floatText v := rfl
    rw [e]
    cases ht : floatText v with
    | nil => exact absurd ht hne
    | cons b t =>
      have hb := number_byte_facts b (hall b (by rw [ht]; simp))
      exact ⟨b, t, rfl, hb.1, hb.2.1⟩

theorem stringsJoin_cons_flatMap (a : GoString) (t : List GoString) (sep : GoString) :
    stringsJoin (a :: t) sep = a ++ t.flatMap (fun x => sep ++ x) := by
  induction t generalizing a with
  | nil => simp [stringsJoin]
  | cons b t ih => rw [stringsJoin_cons_cons, ih]; simp

theorem length_flatMap_sep {α : Type} (f : α → GoString) (sep : GoString) (l : List α)
    (hsep : sep ≠ []) :
    l.length ≤ (l.flatMap (fun x => sep ++ f x)).length := by
  induction l with
  | nil => simp
  | cons a t ih =>
    have : 1 ≤ sep.length := List.length_pos.mpr hsep
    simp only [List.flatMap_cons, List.length_append, List.length_cons]
    omega

theorem readMoreArgs_text (readFloat : GoString → Option Float64) :
    ∀ (ls : List Literal) (n : Nat) (rest : GoString), ls.length < n →
      (∀ l ∈ ls, validLiteral readFloat l) →
      readMoreArgs readFloat n (ls.flatMap (fun l => goStr ", " ++ l.text) ++ 41 :: rest)
        = some (ls, rest) := by
  have hsep : goStr ", " = [44, 32] := rfl
  intro ls
  induction ls with
  | nil =>
    intro n rest hn _
    obtain ⟨m, rfl⟩ : ∃ m, n = m + 1 := ⟨n - 1, by simp at hn; omega⟩
    simp [readMoreArgs, skipSpace_cons_of_not_space 41 rest (by decide)]
  | cons l ls ih =>
    intro n rest hn hv
    obtain ⟨m, rfl⟩ : ∃ m, n = m + 1 := ⟨n - 1, by simp at hn; omega⟩
    have hl := hv l (List.mem_cons_self _ _)
    obtain ⟨b, t, ht, hb, _⟩ := literal_text_head readFloat l hl
    have hrest : endsNumber (ls.flatMap (fun l => goStr ", " ++ l.text) ++ 41 :: rest) := by
      cases ls with
      | nil => intro x hx; simp at hx; rw [← hx]; decide
      | cons l2 ls => intro x hx; simp [hsep] at hx; rw [← hx]; decide
    have e : (l :: ls).flatMap (fun l => goStr ", " ++ l.text) ++ 41 :: rest
        = 44 :: 32 :: (l.text ++ (ls.flatMap (fun l => goStr ", " ++ l.text) ++ 41 :: rest)) := by
      simp [hsep]
    rw [e]
    have h44 : (44 : Byte) ≠ 41 := by decide
    have hskip : skipSpace (32 :: (l.text ++ (ls.flatMap (fun l => goStr ", " ++ l.text)
        ++ 41 :: rest))) = l.text ++ (ls.flatMap (fun l => goStr ", " ++ l.text) ++ 41 :: rest) := by
      rw [skipSpace_space, ht, List.cons_append, skipSpace_cons_of_not_space b _ hb]
    simp only [readMoreArgs, skipSpace_cons_of_not_space 44 _ (by decide), h44, if_false,
      if_true, hskip]
    rw [readLiteral_text readFloat l _ hl hrest]
    simp only
    rw [ih m rest (by simp at hn; omega) (fun x hx => hv x (List.mem_cons_of_mem _ hx))]
    rfl

theorem readArgList_text (readFloat : GoString → Option Float64) (ls : List Literal)
    (rest : GoString) (hv : ∀ l ∈ ls, validLiteral readFloat l) :
    readArgList readFloat (stringsJoin (ls.map Literal.text) (goStr ", ") ++ 41 :: rest)
      = some (ls, rest) := by
  have hsep : goStr ", " = [44, 32] := rfl
  cases ls with
  | nil => simp [stringsJoin, readArgList, skipSpace_cons_of_not_space 41 rest (by decide)]
  | cons l ls =>
    have hl := hv l (List.mem_cons_self _ _)
    obtain ⟨b, t, ht, hb, hb41⟩ := literal_text_head readFloat l hl
    have hrest : endsNumber (ls.flatMap (fun l => goStr ", " ++ l.text) ++ 41 :: rest) := by
      cases ls with
      | nil => intro x hx; simp at hx; rw [← hx]; decide
      | cons l2 ls => intro x hx; simp [hsep] at hx; rw [← hx]; decide
    have e : stringsJoin ((l :: ls).map Literal.text) (goStr ", ") ++ 41 :: rest
        = l.text ++ (ls.flatMap (fun l => goStr ", " ++ l.text) ++ 41 :: rest) := by
      rw [List.map_cons, stringsJoin_cons_flatMap, List.flatMap_map, List.append_assoc]
    rw [e]
    have hlit := readLiteral_text readFloat l _ hl hrest
    rw [ht, List.cons_append] at hlit ⊢
    simp only [readArgList, skipSpace_cons_of_not_space b _ hb, hb41, if_false, hlit]
    rw [readMoreArgs_text readFloat ls _ rest _ (fun x hx => hv x (List.mem_cons_of_mem _ hx))]
    · rfl
    · have := length_flatMap_sep Literal.text (goStr ", ") ls (by decide)
      simp only [List.length_append, List.length_cons]
      omega

theorem readCall_text (readFloat : GoString → Option Float64) (c : Call) (rest : GoString)
    (hc : validCall readFloat c) :
    readCall readFloat (c.text ++ rest) = some (c, rest) := by
  obtain ⟨⟨hne, halnum⟩, hargs⟩ := hc
  have hp : goStr "(" = [40] := rfl
  have hcl : goStr ")" = [41] := rfl
  have e : c.text ++ rest
      = c.name ++ 40 :: (stringsJoin (c.args.map Literal.text) (goStr ", ") ++ 41 :: rest) := by
    simp [Call.text, hp, hcl]
  rw [e]
  obtain ⟨htake, hdrop⟩ := takeWhile_append_stop (p := isAlnum) c.name 40
    (stringsJoin (c.args.map Literal.text) (goStr ", ") ++ 41 :: rest) halnum (by decide)
  simp only [readCall, htake, hdrop, hne, if_false,
    skipSpace_cons_of_not_space 40 _ (by decide), if_true]
  rw [readArgList_text readFloat c.args rest hargs]
  rfl

theorem call_text_head (readFloat : GoString → Option Float64) (c : Call)
    (hc : validCall readFloat c) :
    ∃ b t, c.text = b :: t ∧ isAlnum b = true := by
  obtain ⟨⟨hne, halnum⟩, _⟩ := hc
  cases hn : c.name with
  | nil => exact absurd hn hne
  | cons b t =>
    refine ⟨b, t ++ (goStr "(" ++ (stringsJoin (c.args.map Literal.text) (goStr ", ")
      ++ goStr ")")), ?_, halnum b (by rw [hn]; simp)⟩
    simp [Call.text, hn]

theorem expect2_space (b1 b2 : Byte) (rest : GoString) (h1 : isSpace b1 = false) :
    expect2 b1 b2 (32 :: b1 :: b2 :: rest) = some rest := by
  simp [expect2, skipSpace_space, skipSpace_cons_of_not_space b1 _ h1]

theorem expect2_other (b1 b2 x : Byte) (rest : GoString) (hx : isSpace x = false)
    (hne : x ≠ b1) : expect2 b1 b2 (32 :: x :: rest) = none := by
  simp only [expect2, skipSpace_space, skipSpace_cons_of_not_space x _ hx]
  cases rest <;> simp [hne]

theorem readPredicates_text (readFloat : GoString → Option Float64) :
    ∀ (cs : List Call) (c : Call) (n : Nat) (s rest : GoString), cs.length < n →
      (∀ x ∈ c :: cs, validCall readFloat x) → expect2 38 38 rest = none →
      skipSpace s = c.text ++ (cs.flatMap (fun x => goStr " && " ++ x.text) ++ rest) →
      readPredicates readFloat n s = some (c :: cs, rest) := by
  have hsep : goStr " && " = [32, 38, 38, 32] := rfl
  intro cs
  induction cs with
  | nil =>
    intro c n s rest hn hv hrest hs
    obtain ⟨m, rfl⟩ : ∃ m, n = m + 1 := ⟨n - 1, by simp at hn; omega⟩
    simp only [List.flatMap_nil, List.nil_append] at hs
    simp only [readPredicates, hs, readCall_text readFloat c rest (hv c (by simp)), hrest]
  | cons c2 cs ih =>
    intro c n s rest hn hv hrest hs
    obtain ⟨m, rfl⟩ : ∃ m, n = m + 1 := ⟨n - 1, by simp at hn; omega⟩
    obtain ⟨b, t, ht, hb⟩ := call_text_head readFloat c2 (hv c2 (by simp))
    have hbs := (alnum_byte_facts b hb).1
    have e : (c2 :: cs).flatMap (fun x => goStr " && " ++ x.text) ++ rest
        = 32 :: 38 :: 38 :: (32 :: (c2.text
            ++ (cs.flatMap (fun x => goStr " && " ++ x.text) ++ rest))) := by
      simp [hsep]
    rw [e] at hs
    simp only [readPredicates, hs, readCall_text readFloat c _ (hv c (by simp)),
      expect2_space 38 38 _ (by decide)]
    rw [ih c2 m _ rest (by simp at hn; omega)
      (fun x hx => hv x (List.mem_cons_of_mem _ hx)) hrest
      (by rw [skipSpace_space, ht, List.cons_append, skipSpace_cons_of_not_space b _ hbs])]
    rfl

theorem readPredicateClause_calls (readFloat : GoString → Option Float64) (c : Call)
    (cs : List Call) (s rest : GoString) (hv : ∀ x ∈ c :: cs, validCall readFloat x)
    (hrest : expect2 38 38 rest = none)
    (hs : skipSpace s = stringsJoin ((c :: cs).map Call.text) (goStr " && ") ++ rest) :
    readPredicateClause readFloat s = some (c :: cs, rest) := by
  rw [List.map_cons, stringsJoin_cons_flatMap, List.flatMap_map, List.append_assoc] at hs
  obtain ⟨b, t, ht, hb⟩ := call_text_head readFloat c (hv c (by simp))
  have hbf := alnum_byte_facts b hb
  have hlen := length_flatMap_sep Call.text (goStr " && ") cs (by decide)
  have hs' := hs
  rw [ht, List.cons_append] at hs'
  simp only [readPredicateClause, hs', hbf.2.2.1, if_false]
  apply readPredicates_text readFloat cs c _ _ rest _ hv hrest
  · rw [skipSpace_cons_of_not_space b _ hbf.1, ← List.cons_append, ← ht]
  · simp only [List.length_cons, List.length_append]
    omega

theorem readPredicateClause_wildcard (readFloat : GoString → Option Float64)
    (s rest : GoString) (hs : skipSpace s = goStr "*" ++ rest) :
    readPredicateClause readFloat s = some ([], rest) := by
  have hw : goStr "*" = [42] := rfl
  rw [hw] at hs
  simp [readPredicateClause, hs]

theorem readDelimited_clean (d : Byte) (s rest : GoString)
    (h : ∀ b ∈ s, b ≠ d ∧ b ≠ backslash) :
    readDelimited d (s ++ d :: rest) = some (s, rest) := by
  induction s with
  | nil => simp [readDelimited_delim]
  | cons b t ih =>
    have hb := h b (List.mem_cons_self _ _)
    rw [List.cons_append, readDelimited_plain d b _ hb.1 hb.2 (by simp),
      ih (fun x hx => h x (List.mem_cons_of_mem _ hx))]
    rfl

theorem stringsReplaceFrom_absent (x y : Byte) (new s : GoString) (h : x ∉ s) :
    stringsReplaceFrom [x, y] new s 0 = s := by
  induction s with
  | nil => simp [stringsReplaceFrom]
  | cons b t ih =>
    have hb : b ≠ x := fun e => h (by simp [e])
    rw [replace2_skip x y b new t (Or.inl hb), ih (fun hx => h (List.mem_cons_of_mem _ hx))]

theorem unescape_clean (s chars : GoString) (h : backslash ∉ s) : unescape s chars = s := by
  have hfold : chars.foldl (fun s c => stringsReplace s (goStr "\\" ++ [c]) [c]) s = s := by
    induction chars with
    | nil => rfl
    | cons c cs ih =>
      rw [List.foldl_cons]
      have : stringsReplace s (goStr "\\" ++ [c]) [c] = s :=
        stringsReplaceFrom_absent backslash c [c] s h
      rw [this, ih]
  unfold unescape
  rw [hfold]
  exact stringsReplaceFrom_absent backslash backslash [backslash] s h

theorem startsCall_text (readFloat : GoString → Option Float64) (c : Call) (rest : GoString)
    (hc : validCall readFloat c) : startsCall (c.text ++ rest) = true := by
  obtain ⟨⟨hne, halnum⟩, _⟩ := hc
  have hp : goStr "(" = [40] := rfl
  have e : c.text ++ rest
      = c.name ++ 40 :: (stringsJoin (c.args.map Literal.text) (goStr ", ") ++ goStr ")"
          ++ rest) := by
    simp [Call.text, hp]
  rw [e]
  obtain ⟨htake, hdrop⟩ := takeWhile_append_stop (p := isAlnum) c.name 40
    (stringsJoin (c.args.map Literal.text) (goStr ", ") ++ goStr ")" ++ rest) halnum
    (by decide)
  simp only [startsCall, htake, hdrop, skipSpace_cons_of_not_space 40 _ (by decide)]
  simp [hne]

theorem startsCall_not_alnum (b : Byte) (s : GoString) (hb : isAlnum b = false)
    (hs : isSpace b = false) (h40 : b ≠ 40) : startsCall (b :: s) = false := by
  simp [startsCall, List.dropWhile, List.takeWhile, hb, skipSpace_cons_of_not_space b s hs, h40]

theorem readBackend_text (r : Route) (tail : GoString) (hv : validBackend r) :
    readBackend (r.backendStringQuoted ++ tail)
        = some ({ Shunt := r.Shunt, BackendType := r.BackendType, Backend := r.Backend }, tail)
      ∧ startsCall (r.backendStringQuoted ++ tail) = false
      ∧ ∃ b t, r.backendStringQuoted = b :: t ∧ isSpace b = false := by
  have hshunt : goStr "<shunt>" = [60, 115, 104, 117, 110, 116, 62] := rfl
  have hloop : goStr "<loopback>" = [60, 108, 111, 111, 112, 98, 97, 99, 107, 62] := rfl
  have hq : goStr "\"" = [34] := rfl
  rw [backendStringQuoted_eq]
  rcases hv with ⟨h1, h2, h3⟩ | ⟨h1, h2, h3⟩ | ⟨h1, h2, h3⟩
  · rw [h1, h2, h3]
    simp only [true_or, if_true, hshunt]
    refine ⟨?_, ?_, ⟨60, _, rfl, by decide⟩⟩
    · simp [readBackend, hshunt]
    · exact startsCall_not_alnum 60 _ (by decide) (by decide) (by decide)
  · rw [h1, h2, h3]
    simp only [Bool.false_eq_true, reduceCtorEq, or_self, if_false, if_true, hloop]
    refine ⟨?_, ?_, ⟨60, _, rfl, by decide⟩⟩
    · simp [readBackend, hshunt, hloop]
    · exact startsCall_not_alnum 60 _ (by decide) (by decide) (by decide)
  · rw [h1, h2]
    simp only [Bool.false_eq_true, reduceCtorEq, or_self, if_false, if_true, hq]
    refine ⟨?_, ?_, ⟨34, _, rfl, by decide⟩⟩
    · have hbs : backslash ∉ r.Backend := fun hm => (h3 _ hm).2 rfl
      have hrd := readDelimited_clean 34 r.Backend tail (fun b hb => h3 b hb)
      simp only [List.cons_append, List.nil_append, List.append_assoc] at hrd ⊢
      simp [readBackend, hshunt, hloop, hrd, unescape_clean r.Backend _ hbs]
    · exact startsCall_not_alnum 34 _ (by decide) (by decide) (by decide)

theorem readChain_text (readFloat : GoString → Option Float64) (r : Route) (tail : GoString)
    (hb : validBackend r) :
    ∀ (fs : List Call) (n : Nat), fs.length < n → (∀ f ∈ fs, validCall readFloat f) →
      readChain readFloat n
          (fs.flatMap (fun f => goStr " -> " ++ f.text)
            ++ (goStr " -> " ++ (r.backendStringQuoted ++ tail)))
        = some ((fs, { Shunt := r.Shunt, BackendType := r.BackendType, Backend := r.Backend }),
            tail) := by
  have hsep : goStr " -> " = [32, 45, 62, 32] := rfl
  obtain ⟨hread, hstart, b0, t0, hbt, hb0⟩ := readBackend_text r tail hb
  intro fs
  induction fs with
  | nil =>
    intro n hn _
    obtain ⟨m, rfl⟩ : ∃ m, n = m + 1 := ⟨n - 1, by simp at hn; omega⟩
    have hskip : skipSpace (32 :: (r.backendStringQuoted ++ tail))
        = r.backendStringQuoted ++ tail := by
      rw [skipSpace_space, hbt, List.cons_append, skipSpace_cons_of_not_space b0 _ hb0]
    simp only [List.flatMap_nil, List.nil_append, hsep, List.cons_append, readChain,
      expect2_space 45 62 _ (by decide), hskip, hstart, hread]
    rfl
  | cons f fs ih =>
    intro n hn hv
    obtain ⟨m, rfl⟩ : ∃ m, n = m + 1 := ⟨n - 1, by simp at hn; omega⟩
    have hf := hv f (List.mem_cons_self _ _)
    obtain ⟨b, t, ht, hbal⟩ := call_text_head readFloat f hf
    have hbs := (alnum_byte_facts b hbal).1
    have e : (f :: fs).flatMap (fun f => goStr " -> " ++ f.text)
          ++ (goStr " -> " ++ (r.backendStringQuoted ++ tail))
        = 32 :: 45 :: 62 :: (32 :: (f.text ++ (fs.flatMap (fun f => goStr " -> " ++ f.text)
            ++ (goStr " -> " ++ (r.backendStringQuoted ++ tail))))) := by
      simp [hsep]
    have hskip : skipSpace (32 :: (f.text ++ (fs.flatMap (fun f => goStr " -> " ++ f.text)
            ++ (goStr " -> " ++ (r.backendStringQuoted ++ tail)))))
        = f.text ++ (fs.flatMap (fun f => goStr " -> " ++ f.text)
            ++ (goStr " -> " ++ (r.backendStringQuoted ++ tail))) := by
      rw [skipSpace_space, ht, List.cons_append, skipSpace_cons_of_not_space b _ hbs]
    rw [e]
    simp only [readChain, expect2_space 45 62 _ (by decide), hskip,
      startsCall_text readFloat f _ hf, if_true, readCall_text readFloat f _ hf]
    rw [ih m (by simp at hn; omega) (fun x hx => hv x (List.mem_cons_of_mem _ hx))]
    rfl

theorem argsString_foldl (readFloat : GoString → Option Float64) :
    ∀ (args : List Arg) (init : List GoString), (∀ a ∈ args, validArg readFloat a) →
      args.foldl (fun (sargs : List GoString) a =>
        match a with
        | Arg.float64 v =>
          let f := if v.floorIsSelf then goStr "%.0f" else goStr "%g"
          sargs ++ [sprintfFloat f v]
        | Arg.string s => appendFmtEscape sargs (goStr "\"%s\"") (goStr "\"") [s]
        | Arg.other => sargs) init
      = init ++ args.map (fun a => (argLiteral a).text) := by
  intro args
  induction args with
  | nil => intro init _; simp
  | cons a t ih =>
    intro init hv
    have ha := hv a (List.mem_cons_self _ _)
    rw [List.foldl_cons, ih _ (fun x hx => hv x (List.mem_cons_of_mem _ hx))]
    cases a with
    | float64 v =>
      have hne : goStr "%g" ≠ goStr "%.0f" := by decide
      cases hfl : v.floorIsSelf <;>
        simp [argLiteral, Literal.text, floatText, sprintfFloat, hfl, hne]
    | string s =>
      simp [argLiteral, Literal.text, quoted, appendFmtEscape, appendFmt, Sprintf_v,
        Sprintf_quote]
    | other => exact absurd ha (by simp [validArg])

theorem argsString_valid (readFloat : GoString → Option Float64) (args : List Arg)
    (hv : ∀ a ∈ args, validArg readFloat a) :
    argsString args = stringsJoin ((args.map argLiteral).map Literal.text) (goStr ", ") := by
  have h := argsString_foldl readFloat args [] hv
  have h2 : args.map (fun a => (argLiteral a).text)
      = (args.map argLiteral).map Literal.text := by simp
  rw [List.nil_append, h2] at h
  exact congrArg (fun l => stringsJoin l (goStr ", ")) h

theorem callText_valid (readFloat : GoString → Option Float64) (name : GoString)
    (args : List Arg) (hv : ∀ a ∈ args, validArg readFloat a) :
    callText name args = Call.text { name := name, args := args.map argLiteral } := by
  unfold callText Call.text
  rw [argsString_valid readFloat args hv]

theorem map_congr_mem {α β : Type} (f g : α → β) (l : List α) (h : ∀ x ∈ l, f x = g x) :
    l.map f = l.map g := by
  induction l with
  | nil => rfl
  | cons a t ih =>
    rw [List.map_cons, List.map_cons, h a (List.mem_cons_self _ _),
      ih (fun x hx => h x (List.mem_cons_of_mem _ hx))]

theorem term_Path (p : GoString) :
    Call.text { name := goStr "Path", args := [Literal.str p] }
      = goStr "Path(" ++ (quoted p ++ goStr ")") := rfl

theorem term_Method (p : GoString) :
    Call.text { name := goStr "Method", args := [Literal.str p] }
      = goStr "Method(" ++ (quoted p ++ goStr ")") := rfl

theorem term_Host (h : GoString) :
    Call.text { name := goStr "Host", args := [Literal.regex h] }
      = goStr "Host(/" ++ (escape h (goStr "/") ++ goStr "/)") := by
  have e1 : goStr "Host(/" = goStr "Host" ++ (goStr "(" ++ goStr "/") := rfl
  have e2 : goStr "/)" = goStr "/" ++ goStr ")" := rfl
  rw [e1, e2]
  simp only [Call.text, Literal.text, stringsJoin, List.map, List.append_assoc]

theorem term_PathRegexp (h : GoString) :
    Call.text { name := goStr "PathRegexp", args := [Literal.regex h] }
      = goStr "PathRegexp(/" ++ (escape h (goStr "/") ++ goStr "/)") := by
  have e1 : goStr "PathRegexp(/" = goStr "PathRegexp" ++ (goStr "(" ++ goStr "/") := rfl
  have e2 : goStr "/)" = goStr "/" ++ goStr ")" := rfl
  rw [e1, e2]
  simp only [Call.text, Literal.text, stringsJoin, List.map, List.append_assoc]

theorem term_Header (k v : GoString) :
    Call.text { name := goStr "Header", args := [Literal.str k, Literal.str v] }
      = goStr "Header(" ++ (quoted k ++ (goStr ", " ++ (quoted v ++ goStr ")"))) := by
  have e1 : goStr "Header(" = goStr "Header" ++ goStr "(" := rfl
  rw [e1]
  simp only [Call.text, Literal.text, stringsJoin, List.map, List.append_assoc]

theorem term_HeaderRegexp (k rx : GoString) :
    Call.text { name := goStr "HeaderRegexp", args := [Literal.str k, Literal.regex rx] }
      = goStr "HeaderRegexp(" ++ (quoted k ++ (goStr ", /" ++
          (escape rx (goStr "/") ++ goStr "/)"))) := by
  have e1 : goStr "HeaderRegexp(" = goStr "HeaderRegexp" ++ goStr "(" := rfl
  have e2 : goStr "/)" = goStr "/" ++ goStr ")" := rfl
  have e3 : goStr ", /" = goStr ", " ++ goStr "/" := rfl
  rw [e1, e2, e3]
  simp only [Call.text, Literal.text, stringsJoin, List.map, List.append_assoc]

theorem predicateTerms_eq_calls (readFloat : GoString → Option Float64) (r : Route)
    (hv : r.valid readFloat) (hany : ∀ p ∈ r.Predicates, p.Name ≠ goStr "Any") :
    predicateTerms r = (routeCalls r).map Call.text := by
  obtain ⟨_, hp, _⟩ := hv
  have hfilter : r.Predicates.filter (fun p => decide (p.Name ≠ goStr "Any")) = r.Predicates :=
    List.filter_eq_self.mpr (fun p hp' => by simpa using hany p hp')
  have hgen : r.Predicates.map (fun p => callText p.Name p.Args)
      = r.Predicates.map (fun p => Call.text { name := p.Name, args := p.Args.map argLiteral }) :=
    map_congr_mem _ _ _ (fun p hp' => callText_valid readFloat p.Name p.Args (hp p hp').2.2)
  unfold predicateTerms routeCalls
  rw [hfilter, hgen]
  by_cases h1 : r.Path = [] <;> by_cases h2 : r.Method = [] <;>
    simp only [h1, h2, ne_eq, not_true_eq_false, not_false_eq_true, if_true, if_false,
      List.map_append, List.map_map, List.map_flatMap, List.map_cons, List.map_nil,
      Function.comp_def, term_Path, term_Method, term_Host, term_PathRegexp, term_Header,
      term_HeaderRegexp]

theorem filterTexts_eq_calls (readFloat : GoString → Option Float64) (r : Route)
    (hv : r.valid readFloat) :
    r.Filters.map (fun f => callText f.Name f.Args) = (filterCalls r).map Call.text := by
  obtain ⟨_, _, hf, _⟩ := hv
  unfold filterCalls
  rw [List.map_map]
  exact map_congr_mem _ _ _ (fun f hf' => callText_valid readFloat f.Name f.Args (hf f hf').2)

theorem validLiteral_argLiteral (readFloat : GoString → Option Float64) (a : Arg)
    (ha : validArg readFloat a) : validLiteral readFloat (argLiteral a) := by
  cases a with
  | float64 v => exact ha
  | string s => trivial
  | other => exact absurd ha (by simp [validArg])

theorem validName_builtin :
    validName (goStr "Path") ∧ validName (goStr "Host") ∧ validName (goStr "PathRegexp")
      ∧ validName (goStr "Method") ∧ validName (goStr "Header")
      ∧ validName (goStr "HeaderRegexp") := by
  unfold validName
  decide

theorem routeCalls_valid (readFloat : GoString → Option Float64) (r : Route)
    (hv : r.valid readFloat) : ∀ c ∈ routeCalls r, validCall readFloat c := by
  obtain ⟨_, hp, _⟩ := hv
  obtain ⟨n1, n2, n3, n4, n5, n6⟩ := validName_builtin
  intro c hc
  unfold routeCalls at hc
  simp only [List.mem_append, List.mem_map, List.mem_flatMap] at hc
  rcases hc with ((((((hc | hc) | hc) | hc) | hc) | hc) | hc)
  · by_cases h : r.Path = []
    · simp [h] at hc
    · simp only [ne_eq, h, not_false_eq_true, if_true, List.mem_singleton] at hc
      subst hc
      exact ⟨n1, fun l hl => by simp at hl; subst hl; trivial⟩
  · obtain ⟨h, _, rfl⟩ := hc
    exact ⟨n2, fun l hl => by simp at hl; subst hl; trivial⟩
  · obtain ⟨h, _, rfl⟩ := hc
    exact ⟨n3, fun l hl => by simp at hl; subst hl; trivial⟩
  · by_cases h : r.Method = []
    · simp [h] at hc
    · simp only [ne_eq, h, not_false_eq_true, if_true, List.mem_singleton] at hc
      subst hc
      exact ⟨n4, fun l hl => by simp at hl; subst hl; trivial⟩
  · obtain ⟨h, _, rfl⟩ := hc
    exact ⟨n5, fun l hl => by
      simp at hl
      rcases hl with hl | hl <;> subst hl <;> trivial⟩
  · obtain ⟨krxs, _, rx, _, rfl⟩ := hc
    exact ⟨n6, fun l hl => by
      simp at hl
      rcases hl with hl | hl <;> subst hl <;> trivial⟩
  · obtain ⟨p, hp', rfl⟩ := hc
    refine ⟨(hp p hp').1, fun l hl => ?_⟩
    simp only [List.mem_map] at hl
    obtain ⟨a, ha, rfl⟩ := hl
    exact validLiteral_argLiteral readFloat a ((hp p hp').2.2 a ha)

theorem filterCalls_valid (readFloat : GoString → Option Float64) (r : Route)
    (hv : r.valid readFloat) : ∀ c ∈ filterCalls r, validCall readFloat c := by
  obtain ⟨_, _, hf, _⟩ := hv
  intro c hc
  unfold filterCalls at hc
  simp only [List.mem_map] at hc
  obtain ⟨f, hf', rfl⟩ := hc
  refine ⟨(hf f hf').1, fun l hl => ?_⟩
  simp only [List.mem_map] at hl
  obtain ⟨a, ha, rfl⟩ := hl
  exact validLiteral_argLiteral readFloat a ((hf f hf').2 a ha)

theorem applyPredicates_append (r : Route) (a b : List Call) :
    applyPredicates r (a ++ b) = (applyPredicates r a).bind (fun r1 => applyPredicates r1 b) := by
  induction a generalizing r with
  | nil => simp [applyPredicates]
  | cons c cs ih =>
    rw [List.cons_append]
    simp only [applyPredicates]
    cases h : applyPredicate r c with
    | none => simp
    | some r1 => simp [ih]

theorem apply_hosts (hs : List GoString) : ∀ r : Route,
    applyPredicates r (hs.map (fun h => { name := goStr "Host", args := [Literal.regex h] }))
      = some { r with HostRegexps := r.HostRegexps ++ hs } := by
  have hne : goStr "Host" ≠ goStr "Path" := by decide
  induction hs with
  | nil => intro r; simp [applyPredicates]
  | cons h t ih =>
    intro r
    simp only [List.map_cons, applyPredicates, applyPredicate, hne, if_false, if_true]
    rw [ih]
    simp

theorem apply_pathRegexps (hs : List GoString) : ∀ r : Route,
    applyPredicates r
        (hs.map (fun h => { name := goStr "PathRegexp", args := [Literal.regex h] }))
      = some { r with PathRegexps := r.PathRegexps ++ hs } := by
  have h1 : goStr "PathRegexp" ≠ goStr "Path" := by decide
  have h2 : goStr "PathRegexp" ≠ goStr "Host" := by decide
  induction hs with
  | nil => intro r; simp [applyPredicates]
  | cons h t ih =>
    intro r
    simp only [List.map_cons, applyPredicates, applyPredicate, h1, h2, if_false, if_true]
    rw [ih]
    simp

theorem apply_headers (hs : List (GoString × GoString)) : ∀ r : Route,
    applyPredicates r
        (hs.map (fun kv => { name := goStr "Header",
                             args := [Literal.str kv.1, Literal.str kv.2] }))
      = some { r with Headers := hs.foldl (fun m e => setHeader m e.1 e.2) r.Headers } := by
  have h1 : goStr "Header" ≠ goStr "Path" := by decide
  have h2 : goStr "Header" ≠ goStr "Host" := by decide
  have h3 : goStr "Header" ≠ goStr "PathRegexp" := by decide
  have h4 : goStr "Header" ≠ goStr "Method" := by decide
  induction hs with
  | nil => intro r; simp [applyPredicates]
  | cons h t ih =>
    intro r
    simp only [List.map_cons, applyPredicates, applyPredicate, h1, h2, h3, h4, if_false,
      if_true]
    rw [ih]
    simp

theorem apply_headerRegexps (hs : List (GoString × GoString)) : ∀ r : Route,
    applyPredicates r
        (hs.map (fun kv => { name := goStr "HeaderRegexp",
                             args := [Literal.str kv.1, Literal.regex kv.2] }))
      = some { r with
          HeaderRegexps := hs.foldl (fun m e => addHeaderRegexp m e.1 e.2) r.HeaderRegexps } := by
  have h1 : goStr "HeaderRegexp" ≠ goStr "Path" := by decide
  have h2 : goStr "HeaderRegexp" ≠ goStr "Host" := by decide
  have h3 : goStr "HeaderRegexp" ≠ goStr "PathRegexp" := by decide
  have h4 : goStr "HeaderRegexp" ≠ goStr "Method" := by decide
  have h5 : goStr "HeaderRegexp" ≠ goStr "Header" := by decide
  induction hs with
  | nil => intro r; simp [applyPredicates]
  | cons h t ih =>
    intro r
    simp only [List.map_cons, applyPredicates, applyPredicate, h1, h2, h3, h4, h5, if_false,
      if_true]
    rw [ih]
    simp

theorem toArgs_valid (readFloat : GoString → Option Float64) (args : List Arg)
    (hv : ∀ a ∈ args, validArg readFloat a) : toArgs (args.map argLiteral) = some args := by
  induction args with
  | nil => rfl
  | cons a t ih =>
    have ha := hv a (List.mem_cons_self _ _)
    have iht := ih (fun x hx => hv x (List.mem_cons_of_mem _ hx))
    cases a with
    | float64 v => simp [toArgs, argLiteral, Literal.toArg, iht]
    | string s => simp [toArgs, argLiteral, Literal.toArg, iht]
    | other => exact absurd ha (by simp [validArg])

theorem apply_generic (readFloat : GoString → Option Float64) (ps : List Predicate)
    (hv : ∀ p ∈ ps, p.Name ∉ builtinNames ∧ ∀ a ∈ p.Args, validArg readFloat a) :
    ∀ r : Route,
      applyPredicates r (ps.map (fun p => { name := p.Name, args := p.Args.map argLiteral }))
        = some { r with Predicates := r.Predicates ++ ps } := by
  induction ps with
  | nil => intro r; simp [applyPredicates]
  | cons p t ih =>
    intro r
    obtain ⟨hn, ha⟩ := hv p (List.mem_cons_self _ _)
    simp only [builtinNames, List.mem_cons, List.mem_singleton, List.not_mem_nil, or_false,
      not_or] at hn
    obtain ⟨n1, n2, n3, n4, n5, n6⟩ := hn
    simp only [List.map_cons, applyPredicates, applyPredicate, n1, n2, n3, n4, n5, n6, if_false,
      toArgs_valid readFloat p.Args ha]
    rw [ih (fun x hx => hv x (List.mem_cons_of_mem _ hx))]
    simp

theorem foldl_setHeader (hs : List (GoString × GoString)) :
    ∀ acc : List (GoString × GoString), ((acc ++ hs).map Prod.fst).Nodup →
      hs.foldl (fun m e => setHeader m e.1 e.2) acc = acc ++ hs := by
  induction hs with
  | nil => intro acc _; simp
  | cons e t ih =>
    intro acc hnd
    have hk : acc.any (fun x => decide (x.1 = e.1)) = false := by
      rw [List.any_eq_false]
      intro x hx hxe
      simp only [decide_eq_true_eq] at hxe
      simp only [List.map_append, List.map_cons] at hnd
      have := (List.nodup_append.mp hnd).2.2
      exact this (List.mem_map.mpr ⟨x, hx, hxe⟩) (List.mem_cons_self _ _)
    rw [List.foldl_cons]
    have hset : setHeader acc e.1 e.2 = acc ++ [e] := by
      simp [setHeader, hk]
    rw [hset, ih (acc ++ [e]) (by simpa using hnd)]
    simp

theorem addHeaderRegexp_new (acc : List (GoString × List GoString)) (k rx : GoString)
    (hk : k ∉ acc.map Prod.fst) : addHeaderRegexp acc k rx = acc ++ [(k, [rx])] := by
  have h : acc.any (fun x => decide (x.1 = k)) = false := by
    rw [List.any_eq_false]
    intro x hx hxe
    simp only [decide_eq_true_eq] at hxe
    exact hk (List.mem_map.mpr ⟨x, hx, hxe⟩)
  simp [addHeaderRegexp, h]

theorem addHeaderRegexp_last (acc : List (GoString × List GoString)) (k rx : GoString)
    (l : List GoString) (hk : k ∉ acc.map Prod.fst) :
    addHeaderRegexp (acc ++ [(k, l)]) k rx = acc ++ [(k, l ++ [rx])] := by
  have hmap : acc.map (fun e => if e.1 = k then (k, e.2 ++ [rx]) else e) = acc := by
    conv_rhs => rw [← List.map_id acc]
    apply List.map_congr_left
    intro e he
    have : e.1 ≠ k := fun h => hk (List.mem_map.mpr ⟨e, he, h⟩)
    simp [this]
  simp [addHeaderRegexp, hmap]

theorem foldl_addHeaderRegexp_key (k : GoString) (rxs : List GoString) :
    ∀ (acc : List (GoString × List GoString)) (l : List GoString), k ∉ acc.map Prod.fst →
      (rxs.map (fun rx => (k, rx))).foldl (fun m e => addHeaderRegexp m e.1 e.2)
          (acc ++ [(k, l)]) = acc ++ [(k, l ++ rxs)] := by
  induction rxs with
  | nil => intro acc l _; simp
  | cons rx t ih =>
    intro acc l hk
    rw [List.map_cons, List.foldl_cons, addHeaderRegexp_last acc k rx l hk, ih acc _ hk]
    simp

theorem foldl_addHeaderRegexp (m : List (GoString × List GoString)) :
    ∀ acc : List (GoString × List GoString), ((acc ++ m).map Prod.fst).Nodup →
      (∀ e ∈ m, e.2 ≠ []) →
      (m.flatMap (fun krxs => krxs.2.map (fun rx => (krxs.1, rx)))).foldl
          (fun m e => addHeaderRegexp m e.1 e.2) acc = acc ++ m := by
  induction m with
  | nil => intro acc _ _; simp
  | cons e t ih =>
    intro acc hnd hne
    obtain ⟨k, l⟩ := e
    have hk : k ∉ acc.map Prod.fst := by
      intro hmem
      simp only [List.map_append, List.map_cons] at hnd
      exact (List.nodup_append.mp hnd).2.2 hmem (List.mem_cons_self _ _)
    cases l with
    | nil => exact absurd rfl (hne (k, []) (List.mem_cons_self _ _))
    | cons rx rxs =>
      rw [List.flatMap_cons, List.foldl_append]
      simp only [List.map_cons, List.foldl_cons]
      rw [addHeaderRegexp_new acc k rx hk, foldl_addHeaderRegexp_key k rxs acc [rx] hk,
        ih (acc ++ [(k, [rx] ++ rxs)]) (by simpa using hnd)
          (fun x hx => hne x (List.mem_cons_of_mem _ hx))]
      simp

theorem toFilters_valid (readFloat : GoString → Option Float64) (fs : List Filter)
    (hv : ∀ f ∈ fs, ∀ a ∈ f.Args, validArg readFloat a) :
    toFilters (fs.map (fun f => { name := f.Name, args := f.Args.map argLiteral })) = some fs := by
  induction fs with
  | nil => rfl
  | cons f t ih =>
    have ha := hv f (List.mem_cons_self _ _)
    have iht := ih (fun x hx => hv x (List.mem_cons_of_mem _ hx))
    simp [toFilters, toArgs_valid readFloat f.Args ha, iht]

theorem apply_path (r : Route) (p : GoString) :
    applyPredicates r
        (if p ≠ [] then [{ name := goStr "Path", args := [Literal.str p] }] else [])
      = some { r with Path := if p ≠ [] then p else r.Path } := by
  by_cases h : p = []
  · simp [h, applyPredicates]
  · simp [h, applyPredicates, applyPredicate]

theorem apply_method (r : Route) (p : GoString) :
    applyPredicates r
        (if p ≠ [] then [{ name := goStr "Method", args := [Literal.str p] }] else [])
      = some { r with Method := if p ≠ [] then p else r.Method } := by
  have h1 : goStr "Method" ≠ goStr "Path" := by decide
  have h2 : goStr "Method" ≠ goStr "Host" := by decide
  have h3 : goStr "Method" ≠ goStr "PathRegexp" := by decide
  by_cases h : p = []
  · simp [h, applyPredicates]
  · simp [h, applyPredicates, applyPredicate, h1, h2, h3]

theorem headerRegexp_calls (m : List (GoString × List GoString)) :
    m.flatMap (fun krxs => krxs.2.map
        (fun rx => ({ name := goStr "HeaderRegexp",
                      args := [Literal.str krxs.1, Literal.regex rx] } : Call)))
      = (m.flatMap (fun krxs => krxs.2.map (fun rx => (krxs.1, rx)))).map
          (fun kv => { name := goStr "HeaderRegexp",
                       args := [Literal.str kv.1, Literal.regex kv.2] }) := by
  induction m with
  | nil => rfl
  | cons e t ih => simp [List.flatMap_cons, ih]

theorem applyPredicates_routeCalls (readFloat : GoString → Option Float64) (r : Route)
    (hv : r.valid readFloat) :
    applyPredicates
        { emptyRoute with
          ID := r.ID
          Shunt := r.Shunt
          BackendType := r.BackendType
          Backend := r.Backend } (routeCalls r)
      = some { r with Filters := [] } := by
  obtain ⟨_, hp, _, hh, hhr, hne, _⟩ := hv
  unfold routeCalls
  rw [headerRegexp_calls]
  simp only [applyPredicates_append, apply_path, apply_hosts, apply_pathRegexps, apply_method,
    apply_headers, apply_headerRegexps,
    apply_generic readFloat r.Predicates (fun p hp' => (hp p hp').2), Option.some_bind,
    emptyRoute, List.nil_append]
  rw [foldl_setHeader r.Headers [] (by simpa using hh),
    foldl_addHeaderRegexp r.HeaderRegexps [] (by simpa using hhr) hne]
  cases r
  simp only [List.nil_append]
  congr 2
  · split_ifs with h
    · rfl
    · exact (not_not.mp h).symm
  · split_ifs with h
    · rfl
    · exact (not_not.mp h).symm

theorem chain_head (fs : List Call) (b : GoString) :
    ∃ rest, fs.flatMap (fun f => goStr " -> " ++ f.text) ++ (goStr " -> " ++ b)
      = 32 :: 45 :: rest := by
  have hsep : goStr " -> " = [32, 45, 62, 32] := rfl
  cases fs with
  | nil => exact ⟨62 :: 32 :: b, by simp [hsep]⟩
  | cons f t =>
    exact ⟨62 :: 32 :: (f.text ++ (t.flatMap (fun f => goStr " -> " ++ f.text)
      ++ (goStr " -> " ++ b))), by simp [hsep]⟩

theorem Route_Print_text (readFloat : GoString → Option Float64) (r : Route)
    (hv : r.valid readFloat) (hany : ∀ p ∈ r.Predicates, p.Name ≠ goStr "Any") :
    r.Print false
      = stringsJoin (if routeCalls r = [] then [goStr "*"] else (routeCalls r).map Call.text)
          (goStr " && ")
        ++ ((filterCalls r).flatMap (fun f => goStr " -> " ++ f.text)
          ++ (goStr " -> " ++ r.backendStringQuoted)) := by
  have hsep : separator false = goStr " -> " := rfl
  rw [Route_Print_eq, hsep, List.append_assoc, List.singleton_append, stringsJoin_cons_flatMap,
    predicateString_eq, predicateTerms_eq_calls readFloat r hv hany,
    filterTexts_eq_calls readFloat r hv, List.flatMap_append, List.flatMap_map]
  simp [List.flatMap_cons]

theorem readPredicateClause_print (readFloat : GoString → Option Float64) (r : Route)
    (hv : r.valid readFloat) (s rest : GoString) (hrest : expect2 38 38 rest = none)
    (hs : skipSpace s
      = stringsJoin (if routeCalls r = [] then [goStr "*"] else (routeCalls r).map Call.text)
          (goStr " && ") ++ rest) :
    readPredicateClause readFloat s = some (routeCalls r, rest) := by
  cases hc : routeCalls r with
  | nil =>
    rw [hc] at hs
    exact readPredicateClause_wildcard readFloat s rest (by simpa [stringsJoin] using hs)
  | cons c cs =>
    rw [hc] at hs
    have hvc := routeCalls_valid readFloat r hv
    rw [hc] at hvc
    exact readPredicateClause_calls readFloat c cs s rest hvc hrest (by simpa using hs)

theorem readRoute_print (readFloat : GoString → Option Float64) (r : Route)
    (hv : r.valid readFloat) (hany : ∀ p ∈ r.Predicates, p.Name ≠ goStr "Any")
    (s s1 tail : GoString) (hid : readID s = (r.ID, s1))
    (hs : skipSpace s1 = r.Print false ++ tail) :
    readRoute readFloat s = some (r, tail) := by
  have hb : validBackend r := hv.2.2.2.2.2.2
  rw [Route_Print_text readFloat r hv hany, List.append_assoc, List.append_assoc,
    List.append_assoc] at hs
  obtain ⟨rest, hrest⟩ := chain_head (filterCalls r) (r.backendStringQuoted ++ tail)
  have hexp : expect2 38 38
      ((filterCalls r).flatMap (fun f => goStr " -> " ++ f.text)
        ++ (goStr " -> " ++ (r.backendStringQuoted ++ tail))) = none := by
    rw [hrest]
    exact expect2_other 38 38 45 rest (by decide) (by decide)
  have hclause := readPredicateClause_print readFloat r hv s1 _ hexp hs
  have hlen : (filterCalls r).length
      < ((filterCalls r).flatMap (fun f => goStr " -> " ++ f.text)
        ++ (goStr " -> " ++ (r.backendStringQuoted ++ tail))).length := by
    have h1 := length_flatMap_sep Call.text (goStr " -> ") (filterCalls r) (by decide)
    have h2 : (goStr " -> ").length = 4 := rfl
    simp only [List.length_append, h2]
    omega
  have hchain := readChain_text readFloat r tail hb (filterCalls r) _ hlen
    (filterCalls_valid readFloat r hv)
  have hf : toFilters (filterCalls r) = some r.Filters :=
    toFilters_valid readFloat r.Filters (fun f hf => (hv.2.2.1 f hf).2)
  unfold readRoute
  simp only [hid, hclause, hchain, applyPredicates_routeCalls readFloat r hv, hf]

theorem skipSpace_alnum_head (name rest : GoString) (hne : name ≠ [])
    (hn : ∀ x ∈ name, isAlnum x = true) : skipSpace (name ++ rest) = name ++ rest := by
  cases name with
  | nil => exact absurd rfl hne
  | cons b t =>
    exact skipSpace_cons_of_not_space b _ (alnum_byte_facts b (hn b (List.mem_cons_self _ _))).1

theorem readID_call (name rest : GoString) (hne : name ≠ [])
    (hn : ∀ x ∈ name, isAlnum x = true) :
    readID (name ++ 40 :: rest) = ([], name ++ 40 :: rest) := by
  obtain ⟨_, hdrop⟩ := takeWhile_append_stop (p := isAlnum) name 40 rest hn (by decide)
  have h40 : skipSpace (40 :: rest) = 40 :: rest :=
    skipSpace_cons_of_not_space 40 rest (by decide)
  have hne40 : (40 : Byte) ≠ 58 := by decide
  simp only [readID, skipSpace_alnum_head name _ hne hn, hdrop, h40]
  simp [hne40]

theorem readID_star (rest : GoString) : readID (42 :: rest) = ([], 42 :: rest) := by
  have hs : skipSpace (42 :: rest) = 42 :: rest :=
    skipSpace_cons_of_not_space 42 rest (by decide)
  have ha : isAlnum 42 = false := by decide
  have hne : (42 : Byte) ≠ 58 := by decide
  simp only [readID, hs, List.dropWhile, ha]
  simp [hs, hne]

theorem readID_id (id rest : GoString) (hne : id ≠ [])
    (hn : ∀ x ∈ id, isAlnum x = true) :
    readID (id ++ 58 :: rest) = (id, rest) := by
  obtain ⟨htake, hdrop⟩ := takeWhile_append_stop (p := isAlnum) id 58 rest hn (by decide)
  have h58 : skipSpace (58 :: rest) = 58 :: rest :=
    skipSpace_cons_of_not_space 58 rest (by decide)
  simp only [readID, skipSpace_alnum_head id _ hne hn, hdrop, h58, htake]
  simp [hne]

theorem Route_Print_head (readFloat : GoString → Option Float64) (r : Route)
    (hv : r.valid readFloat) (hany : ∀ p ∈ r.Predicates, p.Name ≠ goStr "Any") :
    readID (r.Print false) = ([], r.Print false)
      ∧ skipSpace (r.Print false) = r.Print false := by
  rw [Route_Print_text readFloat r hv hany]
  cases hc : routeCalls r with
  | nil =>
    have hstar : goStr "*" = [42] := rfl
    simp only [if_pos, stringsJoin, hstar, List.singleton_append]
    exact ⟨readID_star _, skipSpace_cons_of_not_space 42 _ (by decide)⟩
  | cons c cs =>
    have hvc := routeCalls_valid readFloat r hv c (by rw [hc]; exact List.mem_cons_self _ _)
    obtain ⟨⟨hne, hn⟩, _⟩ := hvc
    have hp : goStr "(" = [40] := rfl
    have e : ∀ rest, stringsJoin (List.map Call.text (c :: cs)) (goStr " && ") ++ rest
        = c.name ++ 40 :: (stringsJoin (c.args.map Literal.text) (goStr ", ") ++ (goStr ")"
          ++ ((cs.map Call.text).flatMap (fun x => goStr " && " ++ x) ++ rest))) := by
      intro rest
      rw [List.map_cons, stringsJoin_cons_flatMap]
      simp [Call.text, hp]
    simp only [if_neg (List.cons_ne_nil c cs), e]
    exact ⟨readID_call c.name _ hne hn, skipSpace_alnum_head c.name _ hne hn⟩

theorem readBatch_print (readFloat : GoString → Option Float64) (r : Route)
    (hv : r.valid readFloat) (hany : ∀ p ∈ r.Predicates, p.Name ≠ goStr "Any") (n : Nat) :
    readBatch readFloat (n + 1) (Print false [r]) = some [r] := by
  have hroute : readRoute readFloat (Print false [r]) = some (r, []) := by
    obtain ⟨hid, hskip⟩ := Route_Print_head readFloat r hv hany
    by_cases h : r.ID = []
    · rw [Print_single false r h]
      refine readRoute_print readFloat r hv hany _ (r.Print false) [] ?_ ?_
      · rw [h]; exact hid
      · rw [List.append_nil]; exact hskip
    · rw [Print_batch false [r] (fun r0 h0 e => h (by rw [List.singleton_inj.mp e]; exact h0))]
      have hsep : goStr ": " = [58, 32] := rfl
      have e : stringsJoin (List.map (fun r => r.ID ++ (goStr ": " ++ r.Print false)) [r])
          (goStr ";\n") = r.ID ++ 58 :: (32 :: r.Print false) := by
        simp [stringsJoin, hsep]
      rw [e]
      refine readRoute_print readFloat r hv hany _ (32 :: r.Print false) [] ?_ ?_
      · exact readID_id r.ID _ h hv.1
      · rw [skipSpace_space, List.append_nil]; exact hskip
  simp [readBatch, hroute, skipSpace, List.dropWhile]

theorem parse_print (readFloat : GoString → Option Float64) (r : Route)
    (hv : r.valid readFloat) (hany : ∀ p ∈ r.Predicates, p.Name ≠ goStr "Any") :
    parse readFloat (Print false [r]) = some [r] := by
  unfold parse
  rw [readBatch_print readFloat r hv hany]
  by_cases h : r.ID = [] <;> simp [h]

theorem valid_withoutAny (readFloat : GoString → Option Float64) (r : Route)
    (hv : r.valid readFloat) :
    r.withoutAny.valid readFloat ∧ ∀ p ∈ r.withoutAny.Predicates, p.Name ≠ goStr "Any" := by
  obtain ⟨h1, h2, h3, h4, h5, h6, h7⟩ := hv
  refine ⟨⟨h1, fun p hp => h2 p (List.mem_of_mem_filter hp), h3, h4, h5, h6, h7⟩, fun p hp => ?_⟩
  simpa [Route.withoutAny] using (List.mem_filter.mp hp).2

theorem valid_of_sameAs (readFloat : GoString → Option Float64) (r v : Route)
    (hv : r.valid readFloat) (hs : v.sameAs r) : v.valid readFloat := by
  obtain ⟨h1, h2, h3, h4, h5, h6, h7⟩ := hv
  obtain ⟨k1, k2, k3, k4, k5, k6, k7, k8, k9, k10, k11, k12⟩ := hs
  refine ⟨by rw [k1]; exact h1, by rw [k8]; exact h2, by rw [k9]; exact h3,
    ((k6.map Prod.fst).nodup_iff).mpr h4, ((k7.map Prod.fst).nodup_iff).mpr h5,
    fun e he => h6 e (k7.subset he), ?_⟩
  unfold validBackend at h7 ⊢
  rw [k10, k11, k12]
  exact h7

theorem parse_print_withoutAny (readFloat : GoString → Option Float64) (r : Route)
    (hv : r.valid readFloat) :
    parse readFloat (Print false [r]) = some [r.withoutAny] := by
  obtain ⟨hv1, hany1⟩ := valid_withoutAny readFloat r hv
  rw [← Print_withoutAny r false]
  exact parse_print readFloat r.withoutAny hv1 hany1

theorem richRoute_valid : richRoute.valid readDecimal := by
  refine ⟨by decide, ?_, ?_, by decide, by decide, by decide, Or.inr (Or.inr ⟨rfl, rfl, by decide⟩)⟩
  · intro p hp
    have e : p = { Name := goStr "Traffic",
                   Args := [Arg.float64 { floorIsSelf := true, fmtG := goStr "42",
                                          fmtF0 := goStr "42" },
                            Arg.string (goStr "g")] } := by
      simpa [richRoute] using hp
    subst e
    refine ⟨⟨by decide, by decide⟩, by decide, fun a ha => ?_⟩
    simp only [List.mem_cons, List.mem_singleton, List.not_mem_nil, or_false] at ha
    rcases ha with rfl | rfl
    · exact ⟨by decide, by decide, by rfl⟩
    · exact trivial
  · intro f hf
    have e : f = { Name := goStr "setPath", Args := [Arg.string (goStr "/\"b\\")] } := by
      simpa [richRoute] using hf
    subst e
    refine ⟨⟨by decide, by decide⟩, fun a ha => ?_⟩
    simp only [List.mem_singleton] at ha
    subst ha
    exact trivial

theorem anyRoute_valid : anyRoute.valid readDecimal := by
  refine ⟨by decide, ?_, ?_, by decide, by decide, by decide, Or.inr (Or.inr ⟨rfl, rfl, by decide⟩)⟩
  · intro p hp
    have e : p = { Name := goStr "Any", Args := [] }
        ∨ p = { Name := goStr "Foo", Args := [Arg.string (goStr "x")] } := by
      simpa [anyRoute] using hp
    rcases e with rfl | rfl
    · exact ⟨⟨by decide, by decide⟩, by decide, fun a ha => absurd ha (List.not_mem_nil a)⟩
    · refine ⟨⟨by decide, by decide⟩, by decide, fun a ha => ?_⟩
      simp only [List.mem_singleton] at ha
      subst ha
      exact trivial
  · intro f hf
    have e : f = { Name := goStr "setPath", Args := [Arg.string (goStr "/bar")] } := by
      simpa [anyRoute, scenarioRoute] using hf
    subst e
    refine ⟨⟨by decide, by decide⟩, fun a ha => ?_⟩
    simp only [List.mem_singleton] at ha
    subst ha
    exact trivial

theorem richRoute_text :
    Print false [richRoute]
      = goStr ("r1: Path(\"/a b\") && Host(/^x[.]org$/) && PathRegexp(/^\\/a/) && Method(\"GET\")"
          ++ " && Header(\"Accept\", \"a/b\") && Header(\"X\", \"1\")"
          ++ " && HeaderRegexp(\"Cookie\", /s=1/) && HeaderRegexp(\"Cookie\", /t=\\//)"
          ++ " && HeaderRegexp(\"Y\", /z/) && Traffic(42, \"g\")"
          ++ " -> setPath(\"/\\\"b\\\\\") -> \"https://example.org\"") := by
  rfl

theorem richRoute_parse_eval : parse readDecimal (Print false [richRoute]) = some [richRoute] := by
  rfl

theorem sameAs_withoutAny (v r : Route) (h : v.sameAs r) : v.withoutAny.sameAs r.withoutAny := by
  obtain ⟨k1, k2, k3, k4, k5, k6, k7, k8, k9, k10, k11, k12⟩ := h
  refine ⟨k1, k2, k3, k4, k5, k6, k7, ?_, k9, k10, k11, k12⟩
  unfold Route.withoutAny
  simp only [k8]

theorem withoutAny_of_no_any (r : Route) (h : ∀ p ∈ r.Predicates, p.Name ≠ goStr "Any") :
    r.withoutAny = r := by
  have e := (withoutAny_eq_self_iff r).mpr h
  unfold Route.withoutAny at e ⊢
  simp only at e
  rw [e]

/-- C9, amended: with the parser `parse` of the grammar, over any reader
`readFloat` of number literals, and for every route `r` with valid field
contents (`Route.valid`): whichever order `v` the printer visits the two header
maps of `r` in, parsing the compact print of `v` succeeds and yields exactly the
one route `v.withoutAny`, the visited route without its generic predicates
named `Any`, which is `r.withoutAny` up to header order.  Hence the round trip
holds at `r` if and only if no generic predicate of `r` is named `Any`, and then
parsing the compact print of any visiting order `v` yields exactly `[v]`, a
route equal to `r` field by field modulo header order.  The predicate clause
may be empty (the wildcard `*` is read back as no predicate). -/
theorem roundtrip_iff_no_any (readFloat : GoString → Option Float64) (r : Route)
    (hv : r.valid readFloat) :
    (∀ v : Route, v.sameAs r →
        parse readFloat (Print false [v]) = some [v.withoutAny]
          ∧ v.withoutAny.sameAs r.withoutAny)
      ∧ (RoundTrip (parse readFloat) r ↔ ∀ p ∈ r.Predicates, p.Name ≠ goStr "Any")
      ∧ ((∀ p ∈ r.Predicates, p.Name ≠ goStr "Any") →
          ∀ v : Route, v.sameAs r →
            parse readFloat (Print false [v]) = some [v] ∧ v.sameAs r
              ∧ RoundTrip (parse readFloat) v) := by
  refine ⟨fun v hs => ⟨parse_print_withoutAny readFloat v (valid_of_sameAs readFloat r v hv hs),
    sameAs_withoutAny v r hs⟩, ⟨?_, ?_⟩, ?_⟩
  · rintro ⟨r1, hparse, hsame⟩
    rw [parse_print_withoutAny readFloat r hv] at hparse
    have e : r.withoutAny = r1 := by simpa using hparse
    subst e
    exact (withoutAny_eq_self_iff r).mp hsame.2.2.2.2.2.2.2.1
  · intro hany
    refine ⟨r, ?_, sameAs_refl r⟩
    rw [parse_print_withoutAny readFloat r hv, withoutAny_of_no_any r hany]
  · intro hany v hs
    have hvv := valid_of_sameAs readFloat r v hv hs
    have hanyv : ∀ p ∈ v.Predicates, p.Name ≠ goStr "Any" := by
      rw [hs.2.2.2.2.2.2.2.1]
      exact hany
    have hp : parse readFloat (Print false [v]) = some [v] := by
      rw [parse_print_withoutAny readFloat v hvv, withoutAny_of_no_any v hanyv]
    exact ⟨hp, hs, v, hp, sameAs_refl v⟩

/-- The round trip at `richRoute`, a valid route with every kind of predicate,
an ID, a float argument and escaped bytes, read with `readDecimal`: the parser
returns the route from its compact print; and at `anyRoute`, a valid route with
a generic predicate `Any()`, the round trip fails. -/
theorem roundtrip_iff_no_any_witness :
    richRoute.valid readDecimal
      ∧ parse readDecimal (Print false [richRoute]) = some [richRoute]
      ∧ RoundTrip (parse readDecimal) richRoute
      ∧ ¬ RoundTrip (parse readDecimal) anyRoute :=
  ⟨richRoute_valid,
    ((roundtrip_iff_no_any readDecimal richRoute richRoute_valid).2.2 (by decide) richRoute
      (sameAs_refl richRoute)).1,
    (roundtrip_iff_no_any readDecimal richRoute richRoute_valid).2.1.mpr (by decide),
    fun h => absurd ((roundtrip_iff_no_any readDecimal anyRoute anyRoute_valid).2.1.mp h)
      (by decide)⟩

end Eskip
